import Mathlib

/-!
Shallow embedding of the worklog-aggregation core of `src/jira_ui_app.py`.

The pure helpers (`parse_date`, `extract_text`, `parse_comment`,
`secs_to_hms`) are translated directly.  The network-facing parts
(`get_issues`, the per-issue worklog fetches) are modelled by passing the
outcome of each HTTP call as an explicit `Except` value: a `.error`
models the Python call raising an exception, a `.ok` models the decoded
JSON payload.  The `as_completed` iteration order of the thread pool is
modelled by an explicit completion list `order`, pairing each issue key
with the outcome of its worklog fetch.  Python dicts are modelled as
insertion-ordered association lists; machine integers are `Int`
(Python ints are unbounded, so no wrap-around is modelled).
-/

/-- A calendar date, as produced by Python `datetime.date`. -/
structure Date where
  year : Nat
  month : Nat
  day : Nat
deriving DecidableEq, Repr

/-- Python `date` comparison: lexicographic on (year, month, day). -/
def Date.le (a b : Date) : Bool :=
  decide (a.year < b.year ∨ (a.year = b.year ∧
    (a.month < b.month ∨ (a.month = b.month ∧ a.day ≤ b.day))))

/-- Numeric value of a decimal digit character. -/
def dVal (c : Char) : Nat := c.toNat - 48

/-- Exactly two decimal digits, returning the value and the rest. -/
def parse2 : List Char → Option (Nat × List Char)
  | a :: b :: rest =>
      if a.isDigit ∧ b.isDigit then some (dVal a * 10 + dVal b, rest) else none
  | _ => none

/-- Exactly four decimal digits, returning the value and the rest. -/
def parse4 : List Char → Option (Nat × List Char)
  | a :: b :: c :: d :: rest =>
      if a.isDigit ∧ b.isDigit ∧ c.isDigit ∧ d.isDigit then
        some (dVal a * 1000 + dVal b * 100 + dVal c * 10 + dVal d, rest)
      else none
  | _ => none

/-- Gregorian leap-year rule, as in Python `calendar`/`datetime`. -/
def isLeap (y : Nat) : Bool := decide ((y % 4 = 0 ∧ y % 100 ≠ 0) ∨ y % 400 = 0)

/-- Number of days in a month, as validated by Python `datetime`. -/
def daysInMonth (y m : Nat) : Nat :=
  if m = 2 then (if isLeap y then 29 else 28)
  else if m = 4 ∨ m = 6 ∨ m = 9 ∨ m = 11 then 30 else 31

/-- Fractional part of an ISO time: a dot followed by exactly 3 or 6 digits
(Python `datetime.fromisoformat`). Returns the remaining characters. -/
def parseFrac : List Char → Option (List Char)
  | a :: b :: c :: d :: e :: f :: rest =>
      if a.isDigit ∧ b.isDigit ∧ c.isDigit then
        if d.isDigit ∧ e.isDigit ∧ f.isDigit then some rest
        else some (d :: e :: f :: rest)
      else none
  | a :: b :: c :: rest =>
      if a.isDigit ∧ b.isDigit ∧ c.isDigit then some rest else none
  | _ => none

/-- Optional trailing UTC offset `±HH:MM` of an ISO timestamp; `true` iff the
remaining characters form a valid (possibly absent) offset ending the string. -/
def parseOffset : List Char → Bool
  | [] => true
  | s :: rest =>
      if s = '+' ∨ s = '-' then
        match parse2 rest with
        | some (hh, r1) =>
            match r1 with
            | ':' :: r2 =>
                match parse2 r2 with
                | some (mm, r3) => decide (hh ≤ 23 ∧ mm ≤ 59 ∧ r3 = [])
                | none => false
            | _ => false
        | none => false
      else false

/-- Time-of-day part `HH[:MM[:SS[.fff[fff]]]]` with optional offset;
`true` iff the characters form a valid time part ending the string. -/
def parseTimePart (l : List Char) : Bool :=
  match parse2 l with
  | none => false
  | some (hh, r1) =>
    if hh ≤ 23 then
      match r1 with
      | ':' :: r2 =>
        match parse2 r2 with
        | none => false
        | some (mm, r3) =>
          if mm ≤ 59 then
            match r3 with
            | ':' :: r4 =>
              match parse2 r4 with
              | none => false
              | some (ss, r5) =>
                if ss ≤ 59 then
                  match r5 with
                  | '.' :: r6 =>
                    match parseFrac r6 with
                    | some r7 => parseOffset r7
                    | none => false
                  | _ => parseOffset r5
                else false
            | _ => parseOffset r3
          else false
      | _ => parseOffset r1
    else false

/-- `datetime.fromisoformat`, reduced to the date it carries: parses
`YYYY-MM-DD[<sep>HH:MM[:SS[.fff[fff]]]][±HH:MM]`, validating the calendar
date and the time fields, and returns the date part (`dt.date()`), or
`none` when Python would raise `ValueError`. -/
def fromisoformat (s : String) : Option Date :=
  match parse4 s.data with
  | none => none
  | some (y, r1) =>
    match r1 with
    | '-' :: r2 =>
      match parse2 r2 with
      | none => none
      | some (m, r3) =>
        match r3 with
        | '-' :: r4 =>
          match parse2 r4 with
          | none => none
          | some (d, r5) =>
            if 1 ≤ y ∧ 1 ≤ m ∧ m ≤ 12 ∧ 1 ≤ d ∧ d ≤ daysInMonth y m then
              match r5 with
              | [] => some ⟨y, m, d⟩
              | _sep :: rest => if parseTimePart rest then some ⟨y, m, d⟩ else none
            else none
        | _ => none
    | _ => none

/-- Zero-pad to two digits, as `strftime` does for `%m`/`%d`. -/
def pad2 (n : Nat) : String := if n < 10 then "0" ++ toString n else toString n

/-- Zero-pad to four digits, as `strftime` does for `%Y`. -/
def pad4 (n : Nat) : String :=
  if n < 10 then "000" ++ toString n
  else if n < 100 then "00" ++ toString n
  else if n < 1000 then "0" ++ toString n
  else toString n

/-- `dt.strftime("%Y-%m-%d")`. -/
def formatDate (d : Date) : String := pad4 d.year ++ "-" ++ pad2 d.month ++ "-" ++ pad2 d.day

/-- One-or-two-digit month/day field of `strptime` (`%m`/`%d`): a two-digit
value in `1..hi`, or a single nonzero digit followed by a non-digit. -/
def parseMD (hi : Nat) : List Char → Option (Nat × List Char)
  | a :: b :: rest =>
      if a.isDigit then
        if b.isDigit then
          if 1 ≤ dVal a * 10 + dVal b ∧ dVal a * 10 + dVal b ≤ hi then
            some (dVal a * 10 + dVal b, rest)
          else none
        else if 1 ≤ dVal a then some (dVal a, b :: rest) else none
      else none
  | [a] => if a.isDigit ∧ 1 ≤ dVal a then some (dVal a, []) else none
  | [] => none

/-- `parse_date` from the source: `datetime.strptime(s, "%Y-%m-%d").date()`,
returning `None` (here `none`) when parsing fails. -/
def parse_date (s : String) : Option Date :=
  match parse4 s.data with
  | none => none
  | some (y, r1) =>
    match r1 with
    | '-' :: r2 =>
      match parseMD 12 r2 with
      | none => none
      | some (m, r3) =>
        match r3 with
        | '-' :: r4 =>
          match parseMD 31 r4 with
          | none => none
          | some (d, r5) =>
            if r5 = [] ∧ 1 ≤ y ∧ d ≤ daysInMonth y m then some ⟨y, m, d⟩ else none
        | _ => none
    | _ => none

/-- An Atlassian Document Format node: a dict with optional `type` and
`text` entries and a (possibly absent, then empty) `content` child list. -/
inductive Adf : Type where
  | mk (ty : Option String) (tx : Option String) (content : List Adf) : Adf

/-- The `type` entry of an ADF node. -/
def Adf.ty : Adf → Option String
  | .mk t _ _ => t

/-- The `text` entry of an ADF node. -/
def Adf.tx : Adf → Option String
  | .mk _ t _ => t

/-- The `content` child list of an ADF node. -/
def Adf.content : Adf → List Adf
  | .mk _ _ c => c

mutual

/-- `extract_text` from the source: flatten an ADF tree to plain text,
with bullet-list items prefixed by `"- "`, joined by newlines, trimmed. -/
def extract_text : Adf → String
  | .mk _ _ content => (String.intercalate "\n" (walkAdf content)).trim

/-- The inner `walk` closure of `extract_text`: collect the output lines. -/
def walkAdf : List Adf → List String
  | [] => []
  | Adf.mk t tx c :: ns =>
      (if t = some "text" ∧ tx ≠ none then [tx.getD ""]
       else if t = some "bulletList" then walkBullets c
       else walkAdf c) ++ walkAdf ns

/-- The bullet-list branch of `walk`: one `"- "`-prefixed line per item. -/
def walkBullets : List Adf → List String
  | [] => []
  | li :: lis => ("- " ++ extract_text li) :: walkBullets lis

end

/-- Does the list start with the given prefix of characters? -/
def startsWithChars : List Char → List Char → Bool
  | [], _ => true
  | _ :: _, [] => false
  | p :: ps, c :: cs => p = c ∧ startsWithChars ps cs

/-- One pass of Python `str.replace`: replace every non-overlapping
occurrence of `p :: ps`, left to right.  `fuel` bounds the recursion (the
caller passes the list length, which always suffices) so the function is
structurally recursive and kernel-reducible. -/
def replaceGo (p : Char) (ps rep : List Char) : Nat → List Char → List Char
  | 0, l => l
  | _ + 1, [] => []
  | fuel + 1, c :: cs =>
      if p = c ∧ startsWithChars ps cs then
        rep ++ replaceGo p ps rep fuel (cs.drop ps.length)
      else c :: replaceGo p ps rep fuel cs

/-- Python `str.replace(pat, rep)` (for the nonempty patterns the source
uses): replace all non-overlapping occurrences. -/
def pyReplace (s pat rep : String) : String :=
  match pat.data with
  | [] => s
  | p :: ps => String.mk (replaceGo p ps rep.data s.data.length s.data)

/-- A worklog comment as returned by the API: either a plain string or an
ADF document. -/
inductive Comment : Type where
  | str (s : String) : Comment
  | doc (d : Adf) : Comment

/-- Python truthiness of a comment value: the empty string and the empty
dict are falsy. -/
def commentFalsy : Comment → Bool
  | .str s => decide (s = "")
  | .doc (.mk none none []) => true
  | .doc _ => false

/-- Python regex class `\s`. -/
def isPySpace (c : Char) : Bool :=
  decide (c = ' ' ∨ c = '\t' ∨ c = '\n' ∨ c = '\r' ∨ c = '\x0b' ∨ c = '\x0c')

/-- The match `re.match(r"^\s*\[(.*?)\]\s*(.*)", c)` of `parse_comment`:
skip leading whitespace, require `[`, scan (non-greedily, `.` not crossing
newlines) to the first `]`, skip whitespace, and capture the rest of the
line.  Returns the two capture groups, or `none` when the regex fails. -/
def matchComment (s : String) : Option (String × String) :=
  match s.data.dropWhile isPySpace with
  | [] => none
  | c0 :: r1 =>
      if c0 = '[' then
        match r1.dropWhile (fun c => decide (c ≠ ']' ∧ c ≠ '\n')) with
        | [] => none
        | c1 :: r2 =>
            if c1 = ']' then
              some (String.mk (r1.takeWhile (fun c => decide (c ≠ ']' ∧ c ≠ '\n'))),
                    String.mk ((r2.dropWhile isPySpace).takeWhile (fun c => decide (c ≠ '\n'))))
            else none
      else none

/-- `parse_comment` from the source: split `"[tag] body"` into
`(tag, body)`, falling back to `("기타", text)`. -/
def parse_comment (c : Option Comment) : String × String :=
  match c with
  | none => ("기타", "")
  | some cc =>
      if commentFalsy cc then ("기타", "")
      else
        let s := match cc with | .str s => s | .doc d => extract_text d
        match matchComment s with
        | some tr => tr
        | none => ("기타", s)

/-- `secs_to_hms` from the source: format seconds as `"Hh Mm"` via
`timedelta(seconds=sec or 0)`; `timedelta` normalizes with floored
division, so `days` may be negative while `seconds` stays in
`[0, 86400)`. -/
def secs_to_hms (sec : Option Int) : String :=
  let s : Int := sec.getD 0
  let days := Int.fdiv s 86400
  let seconds := Int.fmod s 86400
  let total_hours := days * 24 + Int.fdiv seconds 3600
  let minutes := Int.fdiv (Int.fmod seconds 3600) 60
  let parts : List String :=
    (if total_hours ≠ 0 then [toString total_hours ++ "h"] else []) ++
      [toString minutes ++ "m"]
  String.intercalate " " parts

/-- Lookup in an insertion-ordered association list (Python `dict[k]` /
`dict.get(k)`): the value at the first matching key. -/
def alGet {α : Type} : List (String × α) → String → Option α
  | [], _ => none
  | (k', v) :: rest, k => if k' = k then some v else alGet rest k

/-- Python `dict.get(k, d)`. -/
def alGetD {α : Type} (m : List (String × α)) (k : String) (d : α) : α :=
  (alGet m k).getD d

/-- Python `dict[k] = v`: update the existing entry in place, else append. -/
def alSet {α : Type} : List (String × α) → String → α → List (String × α)
  | [], k, v => [(k, v)]
  | (k', v') :: rest, k, v =>
      if k' = k then (k', v) :: rest else (k', v') :: alSet rest k v

/-- Python `dict.setdefault(k, v)` (its effect on the dict). -/
def alSetdefault {α : Type} (m : List (String × α)) (k : String) (v : α) : List (String × α) :=
  if (alGet m k).isNone then m ++ [(k, v)] else m

/-- The key list of an association list, in insertion order. -/
def alKeys {α : Type} (m : List (String × α)) : List String := m.map Prod.fst

/-- `DEFAULT_CATEGORIES` from the source. -/
def DEFAULT_CATEGORIES : List String := ["테스트", "개발", "회의", "세미나", "기타"]

/-- The grand-total key `"전체 총 시간"` used in the aggregates. -/
def TOTAL_KEY : String := "전체 총 시간"

/-- `JIRA_DOMAIN` from the source. -/
def JIRA_DOMAIN : String := "auto-jira.atlassian.net"

/-- A parent-issue reference as returned inside the search response: a dict
that may carry a `fields` dict, which in turn may carry a `summary` and a
further `parent`.  `fields = none` models a node without a `fields` entry;
`parent = none` models an absent (or falsy) nested parent. -/
inductive PNode : Type where
  | mk (fields : Option (Option String × Option PNode)) : PNode

/-- The `while top.get("fields",{}).get("parent"): top = top["fields"]["parent"]`
loop of `process_by_author`: follow nested parents to the terminal node. -/
def topLoop : PNode → PNode
  | PNode.mk none => PNode.mk none
  | PNode.mk (some (s, none)) => PNode.mk (some (s, none))
  | PNode.mk (some (_, some p)) => topLoop p

/-- `top["fields"].get("summary","")` applied to the terminal node of the
parent walk: raises `KeyError` (modelled as `.error`) when the terminal
node has no `fields` dict. -/
def resolveTop (p : PNode) : Except String String :=
  match topLoop p with
  | PNode.mk none => Except.error "KeyError"
  | PNode.mk (some (s, _)) => Except.ok (s.getD "")

/-- Lines 150–157 of the source: the top-level grouping title, from the
issue's own summary and its optional parent reference. -/
def top_sum_of (summary : String) (parent : Option PNode) : Except String String :=
  match parent with
  | none => Except.ok summary
  | some p => resolveTop p

/-- Build a parent chain: each list element is one intermediate node's
summary; the final node is `t`. -/
def mkChain : List (Option String) → PNode → PNode
  | [], t => t
  | s :: rest, t => PNode.mk (some (s, some (mkChain rest t)))

/-- The `fields` part of an issue returned by the search call. -/
structure IssueFields where
  summary : Option String
  parent : Option PNode

/-- An issue returned by the search call. -/
structure Issue where
  key : String
  fields : IssueFields

/-- The decoded JSON body of the search response; `issues = none` models a
body without an `"issues"` entry (e.g. a JSON error payload). -/
structure SearchResponse where
  issues : Option (List Issue)

/-- A worklog entry as returned by the per-issue worklog call.
`displayName` is `wl.get("author",{}).get("displayName","")`;
`started`/`timeSpentSeconds`/`comment` model the optional entries. -/
structure Worklog where
  displayName : String
  started : Option String
  timeSpentSeconds : Option Int
  comment : Option Comment

/-- An output row appended to `records`, field for field. -/
structure Record where
  date : String
  category : String
  ticket : String
  description : String
  duration : String
  link : String
deriving DecidableEq, Repr

/-- The daily aggregate under construction: date → (category → seconds). -/
abbrev Daily := List (String × List (String × Int))

/-- The mutable state of the processing loops of `process_by_author`. -/
structure PState where
  records : List Record
  daily : Daily
deriving Repr

/-- Python truthiness of the optional `started` string (`if not started`). -/
def startedFalsy : Option String → Bool
  | none => true
  | some s => decide (s = "")

/-- The aggregation-relevant projection of one qualifying worklog entry:
its date bucket, its (already folded) category bucket, and its seconds. -/
structure QE where
  date : String
  keyCat : String
  sec : Int
deriving DecidableEq, Repr

/-- Line 184's default value: all fixed categories zero-initialized. -/
def initCats : List (String × Int) := DEFAULT_CATEGORIES.map (fun c => (c, 0))

/-- Lines 186–187 of the source: `daily[date_str][key_cat] += sec`. -/
def bumpCat (inner : List (String × Int)) (q : QE) : List (String × Int) :=
  alSet inner q.keyCat (alGetD inner q.keyCat 0 + q.sec)

/-- Line 188 of the source: `daily[date_str]["전체 총 시간"] += sec`. -/
def bumpTot (inner : List (String × Int)) (sec : Int) : List (String × Int) :=
  alSet inner TOTAL_KEY (alGetD inner TOTAL_KEY 0 + sec)

/-- Lines 184–188 of the source: grow `daily` by one qualifying entry —
initialize the date bucket with all fixed categories, ensure the
grand-total key, then add the seconds to the category and total buckets. -/
def addQE (daily : Daily) (q : QE) : Daily :=
  alSet (alSetdefault daily q.date initCats) q.date
    (bumpTot
      (bumpCat
        (alSetdefault (alGetD (alSetdefault daily q.date initCats) q.date []) TOTAL_KEY 0) q)
      q.sec)

/-- The body of the `for wl in wl_list` loop (lines 160–188): re-check the
author and the date range, classify the comment, and extend the records
and the daily aggregate.  A missing `sd`/`ed` reaching a comparison is
Python's `TypeError`; an unparseable timestamp is `ValueError`. -/
def processWorklog (author_name : String) (sd ed : Option Date) (key summary : String)
    (st : PState) (wl : Worklog) : Except String PState :=
  if wl.displayName ≠ author_name then Except.ok st
  else if startedFalsy wl.started then Except.ok st
  else
    match fromisoformat (pyReplace (wl.started.getD "") "Z" "+00:00") with
    | none => Except.error "ValueError"
    | some dt =>
      match sd with
      | none => Except.error "TypeError"
      | some sdv =>
        if Date.le sdv dt then
          match ed with
          | none => Except.error "TypeError"
          | some edv =>
            if Date.le dt edv then
              let cd := parse_comment wl.comment
              let sec := (wl.timeSpentSeconds).getD 0
              let date_str := formatDate dt
              let key_cat := if cd.1 ∈ DEFAULT_CATEGORIES then cd.1 else "기타"
              Except.ok
                ⟨st.records ++
                    [⟨date_str, cd.1, summary, pyReplace cd.2 "\n" "<br>",
                      secs_to_hms (some sec),
                      "https://" ++ JIRA_DOMAIN ++ "/browse/" ++ key⟩],
                  addQE st.daily ⟨date_str, key_cat, sec⟩⟩
            else Except.ok st
        else Except.ok st

/-- The same qualification logic as `processWorklog`, as a pure projection:
`some q` when the entry is accepted into the aggregates, `none` when it is
skipped (or when processing would raise before accepting it). -/
def entryQE (author_name : String) (sd ed : Option Date) (wl : Worklog) : Option QE :=
  if wl.displayName ≠ author_name then none
  else if startedFalsy wl.started then none
  else
    match fromisoformat (pyReplace (wl.started.getD "") "Z" "+00:00") with
    | none => none
    | some dt =>
      match sd with
      | none => none
      | some sdv =>
        if Date.le sdv dt then
          match ed with
          | none => none
          | some edv =>
            if Date.le dt edv then
              some ⟨formatDate dt,
                    (if (parse_comment wl.comment).1 ∈ DEFAULT_CATEGORIES then
                        (parse_comment wl.comment).1 else "기타"),
                    (wl.timeSpentSeconds).getD 0⟩
            else none
        else none

/-- A Python `for` loop whose body may raise, over an `Except` step. -/
def foldE {σ α : Type} (f : σ → α → Except String σ) : σ → List α → Except String σ
  | s, [] => Except.ok s
  | s, x :: xs =>
      match f s x with
      | Except.error e => Except.error e
      | Except.ok s' => foldE f s' xs

/-- The body of the `for future in as_completed(futures)` loop
(lines 143–188): re-raise a failed fetch, look the issue up by key
(`next(filter(...))`, `StopIteration` if absent), compute the top-level
grouping (dead value, but its `KeyError` still propagates), then process
each worklog entry of the issue. -/
def processIssue (issues : List Issue) (author_name : String) (sd ed : Option Date)
    (st : PState) (p : String × Except String (List Worklog)) : Except String PState :=
  match p.2 with
  | Except.error e => Except.error e
  | Except.ok wl_list =>
    match issues.find? (fun x => decide (x.key = p.1)) with
    | none => Except.error "StopIteration"
    | some it =>
      let summary := (it.fields.summary).getD ""
      match top_sum_of summary it.fields.parent with
      | Except.error e => Except.error e
      | Except.ok _top_sum =>
          foldE (processWorklog author_name sd ed p.1 summary) st wl_list

/-- Line 191–192 of the source: the total aggregate, per category and for
the grand-total key, summed over the date buckets of `daily`. -/
def totalOf (daily : Daily) : List (String × Int) :=
  DEFAULT_CATEGORIES.map
      (fun c => (c, ((alKeys daily).map (fun d => alGetD (alGetD daily d []) c 0)).sum))
    ++ [(TOTAL_KEY, ((alKeys daily).map (fun d => alGetD (alGetD daily d []) TOTAL_KEY 0)).sum)]

/-- The raw (seconds-valued) part of `process_by_author`: run the
completion loop over `order` and compute the raw total.  `order` is the
`as_completed` sequence: each element pairs an issue key with the outcome
of its worklog fetch. -/
def processRaw (issues : List Issue) (order : List (String × Except String (List Worklog)))
    (author_name start_s end_s : String) :
    Except String (List Record × Daily × List (String × Int)) :=
  let sd := parse_date start_s
  let ed := parse_date end_s
  match foldE (processIssue issues author_name sd ed) ⟨[], []⟩ order with
  | Except.error e => Except.error e
  | Except.ok st => Except.ok (st.records, st.daily, totalOf st.daily)

/-- `get_issues` from the source, over the outcome of the HTTP call:
an exception propagates; a decoded body yields `data.get("issues", [])`. -/
def get_issues (resp : Except String SearchResponse) : Except String (List Issue) :=
  match resp with
  | Except.error e => Except.error e
  | Except.ok data => Except.ok ((data.issues).getD [])

/-- Lexicographic comparison of character lists by code point, as Python
compares strings. -/
def charListLe : List Char → List Char → Bool
  | [], _ => true
  | _ :: _, [] => false
  | a :: as, b :: bs => if a = b then charListLe as bs else decide (a.toNat < b.toNat)

/-- Python string comparison `a <= b`: lexicographic by code point. -/
def strLe (a b : String) : Bool := charListLe a.data b.data

instance : IsTotal String (fun a b => strLe a b = true) :=
  ⟨by
    intro a b
    obtain ⟨da⟩ := a
    obtain ⟨db⟩ := b
    show charListLe da db = true ∨ charListLe db da = true
    induction da generalizing db with
    | nil => exact Or.inl rfl
    | cons a as ih =>
        cases db with
        | nil => exact Or.inr rfl
        | cons b bs =>
            by_cases hab : a = b
            · subst hab
              rcases ih bs with h | h
              · exact Or.inl (by simp [charListLe, h])
              · exact Or.inr (by simp [charListLe, h])
            · have hba : ¬ (b = a) := fun e => hab e.symm
              have hn : ¬ (a.toNat = b.toNat) := fun e => hab (Char.ext (UInt32.ext e))
              rcases Nat.lt_trichotomy a.toNat b.toNat with h | h | h
              · exact Or.inl (by simp [charListLe, hab, h])
              · exact absurd h hn
              · exact Or.inr (by simp [charListLe, hba, h])⟩

instance : IsTrans String (fun a b => strLe a b = true) :=
  ⟨by
    intro a b c h1 h2
    obtain ⟨da⟩ := a
    obtain ⟨db⟩ := b
    obtain ⟨dc⟩ := c
    show charListLe da dc = true
    replace h1 : charListLe da db = true := h1
    replace h2 : charListLe db dc = true := h2
    induction da generalizing db dc with
    | nil => rfl
    | cons a as ih =>
        cases db with
        | nil => simp [charListLe] at h1
        | cons b bs =>
            cases dc with
            | nil => simp [charListLe] at h2
            | cons c cs =>
                by_cases hab : a = b
                · subst hab
                  by_cases hbc : a = c
                  · subst hbc
                    simp only [charListLe, if_pos rfl] at h1 h2 ⊢
                    exact ih bs cs h1 h2
                  · simp only [charListLe, if_pos rfl] at h1
                    simp only [charListLe, if_neg hbc] at h2 ⊢
                    exact h2
                · by_cases hbc : b = c
                  · subst hbc
                    simp only [charListLe, if_neg hab] at h1 ⊢
                    exact h1
                  · simp only [charListLe, if_neg hab] at h1
                    simp only [charListLe, if_neg hbc] at h2
                    have l1 := of_decide_eq_true h1
                    have l2 := of_decide_eq_true h2
                    have l3 := Nat.lt_trans l1 l2
                    have hac : ¬ (a = c) := fun e => absurd (e ▸ l3) (Nat.lt_irrefl _)
                    simp only [charListLe, if_neg hac]
                    exact decide_eq_true l3⟩

instance : IsAntisymm String (fun a b => strLe a b = true) :=
  ⟨by
    intro a b h1 h2
    obtain ⟨da⟩ := a
    obtain ⟨db⟩ := b
    replace h1 : charListLe da db = true := h1
    replace h2 : charListLe db da = true := h2
    have h : da = db := by
      induction da generalizing db with
      | nil =>
          cases db with
          | nil => rfl
          | cons b bs => simp [charListLe] at h2
      | cons a as ih =>
          cases db with
          | nil => simp [charListLe] at h1
          | cons b bs =>
              by_cases hab : a = b
              · subst hab
                simp only [charListLe, if_pos rfl] at h1 h2
                rw [ih bs h1 h2]
              · have hba : ¬ (b = a) := fun e => hab e.symm
                simp only [charListLe, if_neg hab] at h1
                simp only [charListLe, if_neg hba] at h2
                have l1 := of_decide_eq_true h1
                have l2 := of_decide_eq_true h2
                exact absurd (Nat.lt_trans l1 l2) (Nat.lt_irrefl _)
    rw [h]⟩

/-- Lines 196–199 of the source: the formatted daily aggregate, date
buckets sorted ascending (Python `sorted` on strings), every value through
`secs_to_hms`. -/
def dailyFmt (daily : Daily) : List (String × List (String × String)) :=
  (List.insertionSort (fun a b => strLe a b = true) (alKeys daily)).map
    (fun d => (d, (alGetD daily d []).map (fun kv => (kv.1, secs_to_hms (some kv.2)))))

/-- Line 200 of the source: the formatted total aggregate. -/
def totalFmt (total : List (String × Int)) : List (String × String) :=
  total.map (fun kv => (kv.1, secs_to_hms (some kv.2)))

/-- `process_by_author` from the source: discovery (its HTTP outcome passed
as `disc`), the concurrent worklog fetches (their completion sequence
passed as `order`), aggregation, and output formatting. -/
def process_by_author (disc : Except String SearchResponse)
    (order : List (String × Except String (List Worklog)))
    (author_name start_s end_s : String) :
    Except String (List Record × List (String × List (String × String)) × List (String × String)) :=
  match get_issues disc with
  | Except.error e => Except.error e
  | Except.ok issues =>
    match processRaw issues order author_name start_s end_s with
    | Except.error e => Except.error e
    | Except.ok (records, daily, total) =>
        Except.ok (records, dailyFmt daily, totalFmt total)

/-- Seconds accumulated by the entries of `qs` landing in date bucket `d`
and category bucket `c`. -/
def catSum (qs : List QE) (d c : String) : Int :=
  ((qs.filter (fun q => decide (q.date = d ∧ q.keyCat = c))).map QE.sec).sum

/-- Seconds accumulated by the entries of `qs` landing in date bucket `d`. -/
def totSum (qs : List QE) (d : String) : Int :=
  ((qs.filter (fun q => decide (q.date = d))).map QE.sec).sum

/-- The canonical shape of a date bucket of `daily`: the fixed categories
in their initialization order, then the grand-total key. -/
def canonInner (qs : List QE) (d : String) : List (String × Int) :=
  DEFAULT_CATEGORIES.map (fun c => (c, catSum qs d c)) ++ [(TOTAL_KEY, totSum qs d)]

/-- The daily aggregate produced by folding `addQE` over a list of
qualifying entries. -/
def dailyOf (qs : List QE) : Daily := qs.foldl addQE []

/-- The qualifying entries contributed by one element of the completion
sequence: all entries from a successful fetch passing the re-checks. -/
def qual1 (a : String) (sd ed : Option Date)
    (p : String × Except String (List Worklog)) : List QE :=
  match p.2 with
  | Except.ok l => l.filterMap (entryQE a sd ed)
  | Except.error _ => []

/-- All qualifying entries of a completion sequence, in arrival order. -/
def qualOf (a : String) (sd ed : Option Date) :
    List (String × Except String (List Worklog)) → List QE
  | [] => []
  | p :: rest => qual1 a sd ed p ++ qualOf a sd ed rest

example : fromisoformat "2024-01-01T09:00:00.000+09:00" = some ⟨2024, 1, 1⟩ := by decide

example : fromisoformat "garbage" = none := by decide

example : fromisoformat "2024-02-30" = none := by decide

example : parse_date "2024-01-31" = some ⟨2024, 1, 31⟩ := by decide

example : parse_date "2024-13-01" = none := by decide

example : secs_to_hms (some 3661) = "1h 1m" := by decide

example : secs_to_hms (some 0) = "0m" := by decide

example : secs_to_hms none = "0m" := by decide

example : secs_to_hms (some (-10)) = "-1h 59m" := by decide

example : parse_comment (some (.str "[개발] fix bug")) = ("개발", "fix bug") := by decide

example : parse_comment (some (.str "no tag here")) = ("기타", "no tag here") := by decide

example : parse_comment (some (.str "")) = ("기타", "") := by decide

example : parse_comment (some (.str "[a] b\nc")) = ("a", "b") := by decide

theorem alKeys_nil {α : Type} : alKeys ([] : List (String × α)) = [] := rfl

theorem alKeys_cons {α : Type} (k : String) (v : α) (m : List (String × α)) :
    alKeys ((k, v) :: m) = k :: alKeys m := rfl

theorem alKeys_append {α : Type} (m₁ m₂ : List (String × α)) :
    alKeys (m₁ ++ m₂) = alKeys m₁ ++ alKeys m₂ := by
  simp [alKeys]

theorem alGet_alSet_self {α : Type} (m : List (String × α)) (k : String) (v : α) :
    alGet (alSet m k v) k = some v := by
  induction m with
  | nil => simp [alSet, alGet]
  | cons p rest ih =>
      obtain ⟨k', v'⟩ := p
      by_cases h : k' = k
      · simp [alSet, alGet, h]
      · simp [alSet, alGet, h, ih]

theorem alGet_alSet_ne {α : Type} (m : List (String × α)) (k k' : String) (v : α)
    (h : k' ≠ k) : alGet (alSet m k v) k' = alGet m k' := by
  induction m with
  | nil => simp [alSet, alGet, Ne.symm h]
  | cons p rest ih =>
      obtain ⟨k0, v0⟩ := p
      by_cases h0 : k0 = k
      · subst h0; simp [alSet, alGet, Ne.symm h]
      · simp [alSet, alGet, h0, ih]

theorem alGet_append {α : Type} (m₁ m₂ : List (String × α)) (k : String) :
    alGet (m₁ ++ m₂) k = (alGet m₁ k).or (alGet m₂ k) := by
  induction m₁ with
  | nil => simp [alGet]
  | cons p rest ih =>
      obtain ⟨k0, v0⟩ := p
      by_cases h0 : k0 = k
      · simp [alGet, h0, Option.or]
      · simp [alGet, h0, ih]

theorem alGet_eq_none_iff {α : Type} (m : List (String × α)) (k : String) :
    alGet m k = none ↔ k ∉ alKeys m := by
  induction m with
  | nil => simp [alGet, alKeys]
  | cons p rest ih =>
      obtain ⟨k0, v0⟩ := p
      by_cases h0 : k0 = k
      · subst h0; simp [alGet, alKeys]
      · simp [alGet, alKeys, h0, ih, Ne.symm h0]

theorem mem_alKeys_iff {α : Type} (m : List (String × α)) (k : String) :
    k ∈ alKeys m ↔ ¬ (alGet m k = none) := by
  rw [alGet_eq_none_iff]
  exact not_not.symm

theorem alKeys_alSet {α : Type} (m : List (String × α)) (k : String) (v : α)
    (h : k ∈ alKeys m) : alKeys (alSet m k v) = alKeys m := by
  induction m with
  | nil => simp [alKeys] at h
  | cons p rest ih =>
      obtain ⟨k0, v0⟩ := p
      by_cases h0 : k0 = k
      · simp [alSet, h0, alKeys]
      · have hk : k ∈ alKeys rest := by
          rcases (by simpa [alKeys_cons] using h : k = k0 ∨ k ∈ alKeys rest) with h1 | h1
          · exact absurd h1.symm h0
          · exact h1
        simp [alSet, h0, alKeys_cons, ih hk]

theorem alSet_append_not_mem {α : Type} (m₁ m₂ : List (String × α)) (k : String) (v : α)
    (h : k ∉ alKeys m₁) : alSet (m₁ ++ m₂) k v = m₁ ++ alSet m₂ k v := by
  induction m₁ with
  | nil => simp
  | cons p rest ih =>
      obtain ⟨k0, v0⟩ := p
      have h1 : k0 ≠ k := by
        intro e; exact h (by simp [alKeys_cons, e])
      have h2 : k ∉ alKeys rest := by
        intro hh; exact h (by simp [alKeys_cons, hh])
      simp [alSet, h1, ih h2]

theorem alGet_map_mem {α : Type} (l : List String) (f : String → α) (k : String)
    (h : k ∈ l) : alGet (l.map (fun c => (c, f c))) k = some (f k) := by
  induction l with
  | nil => cases h
  | cons a l ih =>
      by_cases ha : a = k
      · subst ha; simp [alGet]
      · have hk : k ∈ l := by
          rcases List.mem_cons.mp h with h1 | h1
          · exact absurd h1.symm ha
          · exact h1
        simp [alGet, ha, ih hk]

theorem alGet_map_not_mem {α : Type} (l : List String) (f : String → α) (k : String)
    (h : k ∉ l) : alGet (l.map (fun c => (c, f c))) k = none := by
  induction l with
  | nil => rfl
  | cons a l ih =>
      have ha : a ≠ k := fun e => h (by simp [e])
      have hk : k ∉ l := fun hh => h (by simp [hh])
      simp [alGet, ha, ih hk]

theorem alKeys_map {α : Type} (l : List String) (f : String → α) :
    alKeys (l.map (fun c => (c, f c))) = l := by
  simp [alKeys, List.map_map]
  exact List.map_id l

theorem alSet_map_mem {α : Type} (l : List String) (f : String → α) (k : String) (v : α)
    (tail : List (String × α)) (hk : k ∈ l) (hnd : l.Nodup) :
    alSet (l.map (fun c => (c, f c)) ++ tail) k v
      = l.map (fun c => (c, if c = k then v else f c)) ++ tail := by
  induction l with
  | nil => cases hk
  | cons a l ih =>
      obtain ⟨ha, hnd'⟩ := List.nodup_cons.mp hnd
      by_cases hak : a = k
      · subst hak
        have hcongr : l.map (fun c => (c, f c))
            = l.map (fun c => (c, if c = a then v else f c)) := by
          apply List.map_congr_left
          intro c hc
          have : c ≠ a := fun e => ha (e ▸ hc)
          simp [this]
        simp [alSet, hcongr]
      · have hk' : k ∈ l := by
          rcases List.mem_cons.mp hk with h1 | h1
          · exact absurd h1.symm hak
          · exact h1
        simp [alSet, hak, ih hk' hnd']

theorem cats_nodup : DEFAULT_CATEGORIES.Nodup := by decide

theorem total_key_not_mem_cats : TOTAL_KEY ∉ DEFAULT_CATEGORIES := by decide

theorem gita_mem_cats : "기타" ∈ DEFAULT_CATEGORIES := by decide

theorem catSum_append (qs₁ qs₂ : List QE) (d c : String) :
    catSum (qs₁ ++ qs₂) d c = catSum qs₁ d c + catSum qs₂ d c := by
  simp [catSum, List.filter_append]

theorem totSum_append (qs₁ qs₂ : List QE) (d : String) :
    totSum (qs₁ ++ qs₂) d = totSum qs₁ d + totSum qs₂ d := by
  simp [totSum, List.filter_append]

theorem catSum_single (q : QE) (d c : String) :
    catSum [q] d c = if q.date = d ∧ q.keyCat = c then q.sec else 0 := by
  by_cases h : q.date = d ∧ q.keyCat = c <;> simp [catSum, List.filter, h]

theorem totSum_single (q : QE) (d : String) :
    totSum [q] d = if q.date = d then q.sec else 0 := by
  by_cases h : q.date = d <;> simp [totSum, List.filter, h]

theorem catSum_of_not_mem (qs : List QE) (d c : String) (h : d ∉ qs.map QE.date) :
    catSum qs d c = 0 := by
  induction qs with
  | nil => rfl
  | cons q qs ih =>
      have hd : ¬ (q.date = d ∧ q.keyCat = c) := by
        intro e; exact h (by simp [e.1])
      have h' : d ∉ qs.map QE.date := fun hh => h (by simp; exact Or.inr (by simpa using hh))
      simpa [catSum, List.filter_cons, hd] using ih h'

theorem totSum_of_not_mem (qs : List QE) (d : String) (h : d ∉ qs.map QE.date) :
    totSum qs d = 0 := by
  induction qs with
  | nil => rfl
  | cons q qs ih =>
      have hd : ¬ (q.date = d) := by
        intro e; exact h (by simp [e])
      have h' : d ∉ qs.map QE.date := fun hh => h (by simp; exact Or.inr (by simpa using hh))
      simpa [totSum, List.filter_cons, hd] using ih h'

theorem canonInner_get_cat (qs : List QE) (d c : String) (h : c ∈ DEFAULT_CATEGORIES) :
    alGet (canonInner qs d) c = some (catSum qs d c) := by
  unfold canonInner
  rw [alGet_append, alGet_map_mem _ _ _ h]
  rfl

theorem canonInner_get_tot (qs : List QE) (d : String) :
    alGet (canonInner qs d) TOTAL_KEY = some (totSum qs d) := by
  unfold canonInner
  rw [alGet_append, alGet_map_not_mem _ _ _ total_key_not_mem_cats]
  simp [alGet, Option.or]

theorem canonInner_append_ne (qs : List QE) (q : QE) (d : String) (h : ¬ (q.date = d)) :
    canonInner (qs ++ [q]) d = canonInner qs d := by
  unfold canonInner
  rw [totSum_append, totSum_single]
  simp only [h, if_false, add_zero]
  congr 1
  apply List.map_congr_left
  intro c _
  rw [catSum_append, catSum_single]
  simp [h]

theorem canonInner_of_not_mem (qs : List QE) (d : String) (h : d ∉ qs.map QE.date) :
    canonInner qs d = DEFAULT_CATEGORIES.map (fun c => (c, (0 : Int))) ++ [(TOTAL_KEY, 0)] := by
  unfold canonInner
  rw [totSum_of_not_mem _ _ h]
  congr 1
  apply List.map_congr_left
  intro c _
  rw [catSum_of_not_mem _ _ _ h]

theorem alGet_addQE_ne (m : Daily) (q : QE) (d : String) (h : d ≠ q.date) :
    alGet (addQE m q) d = alGet m d := by
  unfold addQE
  rw [alGet_alSet_ne _ _ _ _ h]
  unfold alSetdefault
  split
  · rw [alGet_append]
    simp [alGet, Ne.symm h, Option.or_none]
  · rfl

theorem canonInner_bump (qs : List QE) (q : QE) (hcat : q.keyCat ∈ DEFAULT_CATEGORIES) :
    bumpTot (bumpCat (canonInner qs q.date) q) q.sec = canonInner (qs ++ [q]) q.date := by
  have h1 : alGetD (canonInner qs q.date) q.keyCat 0 = catSum qs q.date q.keyCat := by
    rw [alGetD, canonInner_get_cat _ _ _ hcat]; rfl
  have h2 : bumpCat (canonInner qs q.date) q
      = DEFAULT_CATEGORIES.map
          (fun c => (c, if c = q.keyCat then catSum qs q.date q.keyCat + q.sec else catSum qs q.date c))
        ++ [(TOTAL_KEY, totSum qs q.date)] := by
    unfold bumpCat
    rw [h1]
    unfold canonInner
    exact alSet_map_mem _ _ _ _ _ hcat cats_nodup
  rw [h2]
  unfold bumpTot
  have h3 : alGetD
      (DEFAULT_CATEGORIES.map
          (fun c => (c, if c = q.keyCat then catSum qs q.date q.keyCat + q.sec else catSum qs q.date c))
        ++ [(TOTAL_KEY, totSum qs q.date)]) TOTAL_KEY 0 = totSum qs q.date := by
    rw [alGetD, alGet_append, alGet_map_not_mem _ _ _ total_key_not_mem_cats]
    simp [alGet, Option.or]
  rw [h3]
  have h4 : TOTAL_KEY ∉ alKeys
      (DEFAULT_CATEGORIES.map
        (fun c => (c, if c = q.keyCat then catSum qs q.date q.keyCat + q.sec else catSum qs q.date c))) := by
    rw [alKeys_map]
    exact total_key_not_mem_cats
  rw [alSet_append_not_mem _ _ _ _ h4]
  unfold canonInner
  congr 1
  · apply List.map_congr_left
    intro c _
    rw [catSum_append, catSum_single]
    by_cases hc : c = q.keyCat
    · subst hc; simp
    · have hc' : ¬ (q.keyCat = c) := fun e => hc e.symm
      simp [hc, hc']
  · rw [totSum_append, totSum_single]
    simp [alSet]

theorem alGet_dailyOf (qs : List QE) (hwf : ∀ q ∈ qs, q.keyCat ∈ DEFAULT_CATEGORIES)
    (d : String) :
    alGet (dailyOf qs) d = if d ∈ qs.map QE.date then some (canonInner qs d) else none := by
  induction qs using List.reverseRecOn with
  | nil => simp [dailyOf, alGet]
  | append_singleton qs q ih =>
      have hwf' : ∀ p ∈ qs, p.keyCat ∈ DEFAULT_CATEGORIES :=
        fun p hp => hwf p (by simp [hp])
      have hq : q.keyCat ∈ DEFAULT_CATEGORIES := hwf q (by simp)
      have hfold : dailyOf (qs ++ [q]) = addQE (dailyOf qs) q := by
        simp [dailyOf, List.foldl_append]
      rw [hfold]
      by_cases hdq : d = q.date
      · subst hdq
        have hmem : q.date ∈ (qs ++ [q]).map QE.date := by simp
        rw [if_pos hmem]
        unfold addQE
        by_cases hm : q.date ∈ qs.map QE.date
        · have hget : alGet (dailyOf qs) q.date = some (canonInner qs q.date) := by
            rw [ih hwf', if_pos hm]
          have hsd : alSetdefault (dailyOf qs) q.date initCats = dailyOf qs := by
            unfold alSetdefault
            rw [hget]
            rfl
          rw [hsd]
          have hinner0 : alGetD (dailyOf qs) q.date [] = canonInner qs q.date := by
            rw [alGetD, hget]; rfl
          rw [hinner0]
          have hinner1 : alSetdefault (canonInner qs q.date) TOTAL_KEY 0
              = canonInner qs q.date := by
            unfold alSetdefault
            rw [canonInner_get_tot]
            rfl
          rw [hinner1]
          rw [canonInner_bump qs q hq]
          rw [alGet_alSet_self]
        · have hget : alGet (dailyOf qs) q.date = none := by
            rw [ih hwf', if_neg hm]
          have hsd : alSetdefault (dailyOf qs) q.date initCats
              = dailyOf qs ++ [(q.date, initCats)] := by
            unfold alSetdefault
            rw [hget]
            rfl
          rw [hsd]
          have hinner0 : alGetD (dailyOf qs ++ [(q.date, initCats)]) q.date [] = initCats := by
            rw [alGetD, alGet_append, hget]
            simp [alGet, Option.or]
          rw [hinner0]
          have hinner1 : alSetdefault initCats TOTAL_KEY 0 = canonInner qs q.date := by
            unfold alSetdefault initCats
            rw [alGet_map_not_mem _ _ _ total_key_not_mem_cats]
            rw [canonInner_of_not_mem qs q.date hm]
            rfl
          rw [hinner1]
          rw [canonInner_bump qs q hq]
          rw [alGet_alSet_self]
      · rw [alGet_addQE_ne _ _ _ hdq, ih hwf']
        have hmem : (d ∈ (qs ++ [q]).map QE.date) ↔ (d ∈ qs.map QE.date) := by
          rw [List.map_append, List.mem_append]
          constructor
          · rintro (h | h)
            · exact h
            · exact absurd (by simpa using h) hdq
          · exact fun h => Or.inl h
        by_cases hm : d ∈ qs.map QE.date
        · rw [if_pos hm, if_pos (hmem.mpr hm), canonInner_append_ne qs q d (fun e => hdq e.symm)]
        · rw [if_neg hm, if_neg (fun hc => hm (hmem.mp hc))]

theorem alKeys_addQE (m : Daily) (q : QE) :
    alKeys (addQE m q)
      = if q.date ∈ alKeys m then alKeys m else alKeys m ++ [q.date] := by
  unfold addQE
  by_cases hk : q.date ∈ alKeys m
  · have hget : ¬ (alGet m q.date = none) := (mem_alKeys_iff m q.date).mp hk
    have hsd : alSetdefault m q.date initCats = m := by
      unfold alSetdefault
      cases hv : alGet m q.date with
      | none => exact absurd hv hget
      | some v => rfl
    rw [hsd, if_pos hk]
    exact alKeys_alSet _ _ _ hk
  · have hget : alGet m q.date = none := by
      by_contra hc
      exact hk ((mem_alKeys_iff m q.date).mpr hc)
    have hsd : alSetdefault m q.date initCats = m ++ [(q.date, initCats)] := by
      unfold alSetdefault
      rw [hget]
      rfl
    rw [hsd, if_neg hk]
    have hk2 : q.date ∈ alKeys (m ++ [(q.date, initCats)]) := by
      rw [alKeys_append]
      simp [alKeys]
    rw [alKeys_alSet _ _ _ hk2, alKeys_append]
    rfl

theorem alKeys_dailyOf_nodup (qs : List QE) : (alKeys (dailyOf qs)).Nodup := by
  induction qs using List.reverseRecOn with
  | nil => simp [dailyOf, alKeys]
  | append_singleton qs q ih =>
      have hfold : dailyOf (qs ++ [q]) = addQE (dailyOf qs) q := by
        simp [dailyOf, List.foldl_append]
      rw [hfold, alKeys_addQE]
      by_cases hk : q.date ∈ alKeys (dailyOf qs)
      · rw [if_pos hk]; exact ih
      · rw [if_neg hk]
        simp [List.nodup_append, ih, hk]

theorem mem_alKeys_dailyOf (qs : List QE) (hwf : ∀ q ∈ qs, q.keyCat ∈ DEFAULT_CATEGORIES)
    (d : String) : d ∈ alKeys (dailyOf qs) ↔ d ∈ qs.map QE.date := by
  rw [mem_alKeys_iff, alGet_dailyOf qs hwf d]
  by_cases hm : d ∈ qs.map QE.date <;> simp [hm]

theorem sum_map_add (l : List String) (f g : String → Int) :
    (l.map (fun c => f c + g c)).sum = (l.map f).sum + (l.map g).sum := by
  induction l with
  | nil => simp
  | cons a l ih => simp [ih]; ring

theorem sum_ite_single (l : List String) (k : String) (x : Int) (hk : k ∈ l) (hnd : l.Nodup) :
    (l.map (fun c => if k = c then x else 0)).sum = x := by
  induction l with
  | nil => cases hk
  | cons a l ih =>
      obtain ⟨ha, hnd'⟩ := List.nodup_cons.mp hnd
      by_cases hak : a = k
      · subst hak
        have hz : ∀ c ∈ l, (if a = c then x else (0 : Int)) = 0 := by
          intro c hc
          rw [if_neg]
          intro e
          exact ha (e ▸ hc)
        simp [List.map_congr_left hz]
      · have hk' : k ∈ l := by
          rcases List.mem_cons.mp hk with h1 | h1
          · exact absurd h1.symm hak
          · exact h1
        have : ¬ (k = a) := fun e => hak e.symm
        simp [this, ih hk' hnd']

theorem totSum_eq_sum_cats (qs : List QE) (d : String)
    (hwf : ∀ q ∈ qs, q.keyCat ∈ DEFAULT_CATEGORIES) :
    totSum qs d = (DEFAULT_CATEGORIES.map (fun c => catSum qs d c)).sum := by
  induction qs with
  | nil =>
      simp [totSum, catSum, List.filter]
  | cons q qs ih =>
      have hwf' : ∀ p ∈ qs, p.keyCat ∈ DEFAULT_CATEGORIES :=
        fun p hp => hwf p (List.mem_cons_of_mem _ hp)
      have hq : q.keyCat ∈ DEFAULT_CATEGORIES := hwf q (List.mem_cons_self _ _)
      have hts : totSum (q :: qs) d = (if q.date = d then q.sec else 0) + totSum qs d := by
        by_cases hd : q.date = d <;> simp [totSum, List.filter_cons, hd]
      have hcs : ∀ c, catSum (q :: qs) d c
          = (if q.date = d ∧ q.keyCat = c then q.sec else 0) + catSum qs d c := by
        intro c
        by_cases hp : q.date = d ∧ q.keyCat = c <;> simp [catSum, List.filter_cons, hp]
      have hmap : DEFAULT_CATEGORIES.map (fun c => catSum (q :: qs) d c)
          = DEFAULT_CATEGORIES.map
              (fun c => (if q.date = d ∧ q.keyCat = c then q.sec else 0) + catSum qs d c) :=
        List.map_congr_left (fun c _ => hcs c)
      rw [hts, hmap, sum_map_add, ih hwf']
      congr 1
      by_cases hd : q.date = d
      · have : DEFAULT_CATEGORIES.map
            (fun c => if q.date = d ∧ q.keyCat = c then q.sec else 0)
            = DEFAULT_CATEGORIES.map (fun c => if q.keyCat = c then q.sec else 0) := by
          apply List.map_congr_left
          intro c _
          simp [hd]
        rw [if_pos hd, this, sum_ite_single _ _ _ hq cats_nodup]
      · have : DEFAULT_CATEGORIES.map
            (fun c => if q.date = d ∧ q.keyCat = c then q.sec else 0)
            = DEFAULT_CATEGORIES.map (fun _ => (0 : Int)) := by
          apply List.map_congr_left
          intro c _
          simp [hd]
        rw [if_neg hd, this]
        simp

theorem processWorklog_ok (a : String) (sd ed : Option Date) (key summary : String)
    (st st' : PState) (wl : Worklog)
    (h : processWorklog a sd ed key summary st wl = Except.ok st') :
    (entryQE a sd ed wl = none ∧ st' = st) ∨
    (∃ q, entryQE a sd ed wl = some q ∧ st'.daily = addQE st.daily q) := by
  unfold processWorklog at h
  by_cases h1 : wl.displayName ≠ a
  · rw [if_pos h1] at h
    cases h
    exact Or.inl ⟨by simp [entryQE, h1], rfl⟩
  · rw [if_neg h1] at h
    by_cases h2 : startedFalsy wl.started = true
    · rw [if_pos h2] at h
      cases h
      exact Or.inl ⟨by simp [entryQE, h1, h2], rfl⟩
    · rw [if_neg h2] at h
      cases h3 : fromisoformat (pyReplace (wl.started.getD "") "Z" "+00:00") with
      | none => rw [h3] at h; cases h
      | some dt =>
        rw [h3] at h
        dsimp only at h
        cases h4 : sd with
        | none => rw [h4] at h; cases h
        | some sdv =>
          rw [h4] at h
          dsimp only at h
          by_cases h5 : Date.le sdv dt = true
          · rw [if_pos h5] at h
            cases h6 : ed with
            | none => rw [h6] at h; cases h
            | some edv =>
              rw [h6] at h
              dsimp only at h
              by_cases h7 : Date.le dt edv = true
              · rw [if_pos h7] at h
                cases h
                refine Or.inr ⟨_, ?_, rfl⟩
                simp [entryQE, h1, h2, h3, h4, h5, h6, h7]
              · rw [if_neg h7] at h
                cases h
                exact Or.inl ⟨by simp [entryQE, h1, h2, h3, h4, h5, h6, h7], rfl⟩
          · rw [if_neg h5] at h
            cases h
            exact Or.inl ⟨by simp [entryQE, h1, h2, h3, h4, h5], rfl⟩

theorem entryQE_some_facts (a : String) (sd ed : Option Date) (wl : Worklog) (q : QE)
    (h : entryQE a sd ed wl = some q) :
    wl.displayName = a ∧ ∃ s dt, wl.started = some s ∧ ¬ (s = "") ∧
      fromisoformat (pyReplace s "Z" "+00:00") = some dt ∧
      ∃ sdv edv, sd = some sdv ∧ ed = some edv ∧
        Date.le sdv dt = true ∧ Date.le dt edv = true ∧
        q = ⟨formatDate dt,
              (if (parse_comment wl.comment).1 ∈ DEFAULT_CATEGORIES then
                  (parse_comment wl.comment).1 else "기타"),
              wl.timeSpentSeconds.getD 0⟩ := by
  unfold entryQE at h
  by_cases h1 : wl.displayName ≠ a
  · rw [if_pos h1] at h; cases h
  · rw [if_neg h1] at h
    by_cases h2 : startedFalsy wl.started = true
    · rw [if_pos h2] at h; cases h
    · rw [if_neg h2] at h
      cases hs : wl.started with
      | none => rw [hs] at h2; exact absurd rfl h2
      | some s =>
        have hse : ¬ (s = "") := by
          intro e
          rw [hs, e] at h2
          exact h2 (by rfl)
        rw [hs] at h
        simp only [Option.getD_some] at h
        cases h3 : fromisoformat (pyReplace s "Z" "+00:00") with
        | none => rw [h3] at h; cases h
        | some dt =>
          rw [h3] at h
          dsimp only at h
          cases h4 : sd with
          | none => rw [h4] at h; cases h
          | some sdv =>
            rw [h4] at h
            dsimp only at h
            by_cases h5 : Date.le sdv dt = true
            · rw [if_pos h5] at h
              cases h6 : ed with
              | none => rw [h6] at h; cases h
              | some edv =>
                rw [h6] at h
                dsimp only at h
                by_cases h7 : Date.le dt edv = true
                · rw [if_pos h7] at h
                  cases h
                  exact ⟨not_not.mp h1, s, dt, rfl, hse, h3, sdv, edv, rfl, rfl, h5, h7, rfl⟩
                · rw [if_neg h7] at h; cases h
            · rw [if_neg h5] at h; cases h

theorem entryQE_keyCat (a : String) (sd ed : Option Date) (wl : Worklog) (q : QE)
    (h : entryQE a sd ed wl = some q) : q.keyCat ∈ DEFAULT_CATEGORIES := by
  obtain ⟨-, s, dt, -, -, -, sdv, edv, -, -, -, -, hq⟩ := entryQE_some_facts a sd ed wl q h
  subst hq
  show (if (parse_comment wl.comment).1 ∈ DEFAULT_CATEGORIES then
      (parse_comment wl.comment).1 else "기타") ∈ DEFAULT_CATEGORIES
  by_cases h8 : (parse_comment wl.comment).1 ∈ DEFAULT_CATEGORIES
  · rw [if_pos h8]
    exact h8
  · rw [if_neg h8]
    exact gita_mem_cats

theorem foldE_worklogs_daily (a : String) (sd ed : Option Date) (key summary : String)
    (wl_list : List Worklog) (st st' : PState)
    (h : foldE (processWorklog a sd ed key summary) st wl_list = Except.ok st') :
    st'.daily = (wl_list.filterMap (entryQE a sd ed)).foldl addQE st.daily := by
  induction wl_list generalizing st with
  | nil =>
      simp only [foldE] at h
      cases h
      rfl
  | cons wl rest ih =>
      simp only [foldE] at h
      cases hw : processWorklog a sd ed key summary st wl with
      | error e => rw [hw] at h; cases h
      | ok st₁ =>
          rw [hw] at h
          dsimp only at h
          rcases processWorklog_ok a sd ed key summary st st₁ wl hw with
            ⟨he, rfl⟩ | ⟨q, he, hdq⟩
          · rw [List.filterMap_cons, he]
            exact ih st₁ h
          · rw [List.filterMap_cons, he, List.foldl_cons, ← hdq]
            exact ih st₁ h

theorem processIssue_ok (issues : List Issue) (a : String) (sd ed : Option Date)
    (st st' : PState) (p : String × Except String (List Worklog))
    (h : processIssue issues a sd ed st p = Except.ok st') :
    st'.daily = (qual1 a sd ed p).foldl addQE st.daily ∧ ∃ l, p.2 = Except.ok l := by
  unfold processIssue at h
  cases hp : p.2 with
  | error e => rw [hp] at h; cases h
  | ok wl_list =>
      rw [hp] at h
      dsimp only at h
      cases hf : issues.find? (fun x => decide (x.key = p.1)) with
      | none => rw [hf] at h; cases h
      | some it =>
          rw [hf] at h
          dsimp only at h
          cases ht : top_sum_of ((it.fields.summary).getD "") it.fields.parent with
          | error e => rw [ht] at h; cases h
          | ok ts =>
              rw [ht] at h
              dsimp only at h
              constructor
              · have hfd := foldE_worklogs_daily a sd ed p.1 ((it.fields.summary).getD "")
                  wl_list st st' h
                rw [hfd]
                unfold qual1
                rw [hp]
              · exact ⟨wl_list, rfl⟩

theorem foldE_issues (issues : List Issue) (a : String) (sd ed : Option Date)
    (order : List (String × Except String (List Worklog))) (st st' : PState)
    (h : foldE (processIssue issues a sd ed) st order = Except.ok st') :
    st'.daily = (qualOf a sd ed order).foldl addQE st.daily ∧
      ∀ p ∈ order, ∃ l, p.2 = Except.ok l := by
  induction order generalizing st with
  | nil =>
      simp only [foldE] at h
      cases h
      exact ⟨rfl, by simp⟩
  | cons p rest ih =>
      simp only [foldE] at h
      cases hp : processIssue issues a sd ed st p with
      | error e => rw [hp] at h; cases h
      | ok st₁ =>
          rw [hp] at h
          dsimp only at h
          obtain ⟨hd, hl⟩ := processIssue_ok issues a sd ed st st₁ p hp
          obtain ⟨hd', hall⟩ := ih st₁ h
          constructor
          · rw [hd', hd]
            simp only [qualOf]
            rw [List.foldl_append]
          · intro p' hp'
            rcases List.mem_cons.mp hp' with rfl | hmem
            · exact hl
            · exact hall p' hmem

theorem processRaw_ok (issues : List Issue)
    (order : List (String × Except String (List Worklog)))
    (a ss es : String) (recs : List Record) (daily : Daily) (total : List (String × Int))
    (h : processRaw issues order a ss es = Except.ok (recs, daily, total)) :
    daily = dailyOf (qualOf a (parse_date ss) (parse_date es) order) ∧
    total = totalOf daily ∧
    ∀ p ∈ order, ∃ l, p.2 = Except.ok l := by
  simp only [processRaw] at h
  cases hf : foldE (processIssue issues a (parse_date ss) (parse_date es)) ⟨[], []⟩ order with
  | error e => rw [hf] at h; cases h
  | ok st =>
      rw [hf] at h
      dsimp only at h
      obtain ⟨hd, hall⟩ := foldE_issues issues a (parse_date ss) (parse_date es) order _ st hf
      injection h with hh
      injection hh with ha hb
      injection hb with hb hc
      subst ha
      subst hb
      subst hc
      exact ⟨hd, rfl, hall⟩

theorem qualOf_wf (a : String) (sd ed : Option Date)
    (order : List (String × Except String (List Worklog))) :
    ∀ q ∈ qualOf a sd ed order, q.keyCat ∈ DEFAULT_CATEGORIES := by
  induction order with
  | nil => intro q hq; cases hq
  | cons p rest ih =>
      intro q hq
      simp only [qualOf] at hq
      rcases List.mem_append.mp hq with h | h
      · unfold qual1 at h
        cases hp : p.2 with
        | error e => rw [hp] at h; cases h
        | ok l =>
            rw [hp] at h
            dsimp only at h
            obtain ⟨wl, _, he⟩ := List.mem_filterMap.mp h
            exact entryQE_keyCat a sd ed wl q he
      · exact ih q h

theorem qualOf_perm (a : String) (sd ed : Option Date)
    (o₁ o₂ : List (String × Except String (List Worklog))) (h : List.Perm o₁ o₂) :
    List.Perm (qualOf a sd ed o₁) (qualOf a sd ed o₂) := by
  induction h with
  | nil => exact List.Perm.refl _
  | cons x _ ih =>
      simp only [qualOf]
      exact List.Perm.append_left _ ih
  | swap x y l =>
      simp only [qualOf]
      rw [← List.append_assoc, ← List.append_assoc]
      exact List.Perm.append_right _ List.perm_append_comm
  | trans _ _ ih₁ ih₂ => exact ih₁.trans ih₂

theorem catSum_perm (qs₁ qs₂ : List QE) (d c : String) (h : List.Perm qs₁ qs₂) :
    catSum qs₁ d c = catSum qs₂ d c :=
  List.Perm.sum_eq (List.Perm.map _ (List.Perm.filter _ h))

theorem totSum_perm (qs₁ qs₂ : List QE) (d : String) (h : List.Perm qs₁ qs₂) :
    totSum qs₁ d = totSum qs₂ d :=
  List.Perm.sum_eq (List.Perm.map _ (List.Perm.filter _ h))

theorem canonInner_perm (qs₁ qs₂ : List QE) (d : String) (h : List.Perm qs₁ qs₂) :
    canonInner qs₁ d = canonInner qs₂ d := by
  unfold canonInner
  rw [totSum_perm qs₁ qs₂ d h]
  congr 1
  apply List.map_congr_left
  intro c _
  rw [catSum_perm qs₁ qs₂ d c h]

theorem dailyFmt_congr (daily₁ daily₂ : Daily)
    (h₁ : (alKeys daily₁).Nodup) (h₂ : (alKeys daily₂).Nodup)
    (hmem : ∀ d, d ∈ alKeys daily₁ ↔ d ∈ alKeys daily₂)
    (hget : ∀ d, alGet daily₁ d = alGet daily₂ d) :
    dailyFmt daily₁ = dailyFmt daily₂ := by
  have hperm : List.Perm (alKeys daily₁) (alKeys daily₂) :=
    (List.perm_ext_iff_of_nodup h₁ h₂).mpr hmem
  have hs1 : List.Sorted (fun a b : String => strLe a b = true)
      (List.insertionSort (fun a b => strLe a b = true) (alKeys daily₁)) :=
    List.sorted_insertionSort _ _
  have hs2 : List.Sorted (fun a b : String => strLe a b = true)
      (List.insertionSort (fun a b => strLe a b = true) (alKeys daily₂)) :=
    List.sorted_insertionSort _ _
  have hsort : List.insertionSort (fun a b => strLe a b = true) (alKeys daily₁)
      = List.insertionSort (fun a b => strLe a b = true) (alKeys daily₂) :=
    List.eq_of_perm_of_sorted
      (((List.perm_insertionSort _ _).trans hperm).trans
        (List.perm_insertionSort _ _).symm) hs1 hs2
  unfold dailyFmt
  rw [hsort]
  apply List.map_congr_left
  intro d _
  simp only [alGetD, hget d]

theorem totalOf_congr (daily₁ daily₂ : Daily)
    (h₁ : (alKeys daily₁).Nodup) (h₂ : (alKeys daily₂).Nodup)
    (hmem : ∀ d, d ∈ alKeys daily₁ ↔ d ∈ alKeys daily₂)
    (hget : ∀ d, alGet daily₁ d = alGet daily₂ d) :
    totalOf daily₁ = totalOf daily₂ := by
  have hperm : List.Perm (alKeys daily₁) (alKeys daily₂) :=
    (List.perm_ext_iff_of_nodup h₁ h₂).mpr hmem
  have hfun : ∀ c d, alGetD (alGetD daily₁ d []) c 0 = alGetD (alGetD daily₂ d []) c 0 := by
    intro c d
    simp only [alGetD, hget d]
  unfold totalOf
  congr 1
  · apply List.map_congr_left
    intro c _
    congr 1
    rw [List.map_congr_left (fun d _ => hfun c d)]
    exact List.Perm.sum_eq (List.Perm.map _ hperm)
  · rw [List.map_congr_left (fun d _ => hfun TOTAL_KEY d)]
    rw [List.Perm.sum_eq (List.Perm.map _ hperm)]

theorem process_by_author_ok (disc : Except String SearchResponse)
    (order : List (String × Except String (List Worklog)))
    (a ss es : String) (r : List Record)
    (df : List (String × List (String × String))) (tf : List (String × String))
    (h : process_by_author disc order a ss es = Except.ok (r, df, tf)) :
    ∃ issues daily total, get_issues disc = Except.ok issues ∧
      processRaw issues order a ss es = Except.ok (r, daily, total) ∧
      df = dailyFmt daily ∧ tf = totalFmt total := by
  unfold process_by_author at h
  cases hg : get_issues disc with
  | error e => rw [hg] at h; cases h
  | ok issues =>
      rw [hg] at h
      dsimp only at h
      cases hr : processRaw issues order a ss es with
      | error e => rw [hr] at h; cases h
      | ok out =>
          obtain ⟨recs, daily, total⟩ := out
          rw [hr] at h
          dsimp only at h
          injection h with hh
          injection hh with ha hb
          injection hb with hb hc
          subst ha
          subst hb
          subst hc
          exact ⟨issues, daily, total, rfl, hr, rfl, rfl⟩

theorem dropWhile_append_all (p : Char → Bool) (w l : List Char)
    (h : ∀ c ∈ w, p c = true) : (w ++ l).dropWhile p = l.dropWhile p := by
  induction w with
  | nil => rfl
  | cons a w ih =>
      rw [List.cons_append, List.dropWhile_cons, if_pos (h a (List.mem_cons_self _ _))]
      exact ih (fun c hc => h c (List.mem_cons_of_mem _ hc))

theorem dropWhile_cons_neg (p : Char → Bool) (x : Char) (l : List Char)
    (hx : ¬ (p x = true)) : (x :: l).dropWhile p = x :: l := by
  rw [List.dropWhile_cons, if_neg hx]

theorem dropWhile_append_stop (p : Char → Bool) (w : List Char) (x : Char) (l : List Char)
    (h : ∀ c ∈ w, p c = true) (hx : ¬ (p x = true)) :
    (w ++ x :: l).dropWhile p = x :: l := by
  rw [dropWhile_append_all p w _ h, dropWhile_cons_neg p x l hx]

theorem takeWhile_append_stop (p : Char → Bool) (w : List Char) (x : Char) (l : List Char)
    (h : ∀ c ∈ w, p c = true) (hx : ¬ (p x = true)) :
    (w ++ x :: l).takeWhile p = w := by
  induction w with
  | nil => rw [List.nil_append, List.takeWhile_cons, if_neg hx]
  | cons a w ih =>
      rw [List.cons_append, List.takeWhile_cons, if_pos (h a (List.mem_cons_self _ _))]
      rw [ih (fun c hc => h c (List.mem_cons_of_mem _ hc))]

theorem secs_to_hms_nonneg (S : Nat) :
    secs_to_hms (some (S : Int))
      = if S / 3600 = 0 then toString (S % 3600 / 60) ++ "m"
        else toString (S / 3600) ++ "h" ++ " " ++ (toString (S % 3600 / 60) ++ "m") := by
  simp only [secs_to_hms, Option.getD_some]
  have e1 : Int.fdiv (S : Int) 86400 = ((S / 86400 : Nat) : Int) := by
    rw [show (86400 : Int) = ((86400 : Nat) : Int) from rfl, ← Int.ofNat_fdiv]
  have e2 : Int.fmod (S : Int) 86400 = ((S % 86400 : Nat) : Int) := by
    rw [show (86400 : Int) = ((86400 : Nat) : Int) from rfl, ← Int.ofNat_fmod]
  rw [e1, e2]
  have e3 : ((S / 86400 : Nat) : Int) * 24 + Int.fdiv ((S % 86400 : Nat) : Int) 3600
      = ((S / 3600 : Nat) : Int) := by
    have e4 : Int.fdiv ((S % 86400 : Nat) : Int) 3600 = ((S % 86400 / 3600 : Nat) : Int) := by
      rw [show (3600 : Int) = ((3600 : Nat) : Int) from rfl, ← Int.ofNat_fdiv]
    rw [e4]
    omega
  rw [e3]
  have e5 : Int.fdiv (Int.fmod ((S % 86400 : Nat) : Int) 3600) 60
      = ((S % 3600 / 60 : Nat) : Int) := by
    have e6 : Int.fmod ((S % 86400 : Nat) : Int) 3600 = ((S % 86400 % 3600 : Nat) : Int) := by
      rw [show (3600 : Int) = ((3600 : Nat) : Int) from rfl, ← Int.ofNat_fmod]
    have e7 : S % 86400 % 3600 = S % 3600 := by omega
    rw [e6, e7]
    rw [show (60 : Int) = ((60 : Nat) : Int) from rfl, ← Int.ofNat_fdiv]
  rw [e5]
  have tcast : ∀ n : Nat, toString ((n : Nat) : Int) = toString n := fun n => rfl
  by_cases hz : S / 3600 = 0
  · rw [if_pos hz]
    rw [if_neg (by simp [hz])]
    rw [tcast]
    rfl
  · rw [if_neg hz]
    rw [if_pos (by exact_mod_cast hz)]
    rw [tcast, tcast]
    rfl

/-- C1: per-entry re-filtering in `process_by_author` (lines 160–172).  An
entry contributes to the state only if its author display name equals the
queried author name exactly and its parsed start date lies within the
inclusive `[sd, ed]` range: (1) an author mismatch leaves the state (records
and daily aggregate, hence also the derived total aggregate) unchanged;
(2) a parseable start date outside the inclusive range leaves the state
unchanged; (3) conversely, whenever the step returns a changed state, the
author matched exactly and the start date parsed and lay inside the range. -/
theorem claim_c1_entry_filter (a : String) (sd ed : Option Date) (key summary : String)
    (st : PState) (wl : Worklog) :
    (wl.displayName ≠ a → processWorklog a sd ed key summary st wl = Except.ok st)
    ∧ (∀ dt sdv edv, fromisoformat (pyReplace (wl.started.getD "") "Z" "+00:00") = some dt →
        sd = some sdv → ed = some edv →
        ¬ (Date.le sdv dt = true ∧ Date.le dt edv = true) →
        processWorklog a sd ed key summary st wl = Except.ok st)
    ∧ (∀ st', processWorklog a sd ed key summary st wl = Except.ok st' → ¬ (st' = st) →
        wl.displayName = a ∧ ∃ s dt, wl.started = some s ∧
          fromisoformat (pyReplace s "Z" "+00:00") = some dt ∧
          ∃ sdv edv, sd = some sdv ∧ ed = some edv ∧
            Date.le sdv dt = true ∧ Date.le dt edv = true) := by
  refine ⟨?_, ?_, ?_⟩
  · intro h1
    unfold processWorklog
    rw [if_pos h1]
  · intro dt sdv edv hdt hsd hed hrange
    unfold processWorklog
    by_cases h1 : wl.displayName ≠ a
    · rw [if_pos h1]
    · rw [if_neg h1]
      by_cases h2 : startedFalsy wl.started = true
      · rw [if_pos h2]
      · rw [if_neg h2]
        rw [hdt]
        dsimp only
        rw [hsd]
        dsimp only
        by_cases h5 : Date.le sdv dt = true
        · rw [if_pos h5, hed]
          dsimp only
          rw [if_neg (fun hc => hrange ⟨h5, hc⟩)]
        · rw [if_neg h5]
  · intro st' hok hne
    rcases processWorklog_ok a sd ed key summary st st' wl hok with ⟨-, rfl⟩ | ⟨q, he, -⟩
    · exact absurd rfl hne
    · obtain ⟨hA, s, dt, hs, hse, hdt, sdv, edv, hsd, hed, h5, h7, -⟩ :=
        entryQE_some_facts a sd ed wl q he
      exact ⟨hA, s, dt, hs, hdt, sdv, edv, hsd, hed, h5, h7⟩

/-- Witness for C1: a concrete entry by another author is skipped, and a
concrete entry of the right author outside the date range is skipped. -/
theorem claim_c1_witness :
    processWorklog "A" (some ⟨2024, 1, 1⟩) (some ⟨2024, 1, 2⟩) "K" "S" ⟨[], []⟩
        ⟨"B", some "2024-01-01T00:00:00", some 60, none⟩ = Except.ok ⟨[], []⟩
    ∧ processWorklog "A" (some ⟨2024, 1, 1⟩) (some ⟨2024, 1, 2⟩) "K" "S" ⟨[], []⟩
        ⟨"A", some "2024-03-05T00:00:00", some 60, none⟩ = Except.ok ⟨[], []⟩ := by
  constructor
  · exact (claim_c1_entry_filter "A" (some ⟨2024, 1, 1⟩) (some ⟨2024, 1, 2⟩) "K" "S" ⟨[], []⟩
      ⟨"B", some "2024-01-01T00:00:00", some 60, none⟩).1 (by decide)
  · exact (claim_c1_entry_filter "A" (some ⟨2024, 1, 1⟩) (some ⟨2024, 1, 2⟩) "K" "S" ⟨[], []⟩
      ⟨"A", some "2024-03-05T00:00:00", some 60, none⟩).2.1 ⟨2024, 3, 5⟩ ⟨2024, 1, 1⟩
      ⟨2024, 1, 2⟩ (by decide) rfl rfl (by decide)

/-- C2: conservation invariant of the aggregates (lines 184–192), stated
at the raw-seconds level that feeds the formatted output.  In a successful
run: (1) in every date bucket of the daily aggregate, the grand-total
entry equals the sum of the per-category entries over the fixed category
set; (2) each per-category entry of the total aggregate is the sum of the
corresponding entries across all date buckets of the daily aggregate, and
(3) so is its grand-total entry. -/
theorem claim_c2_conservation (issues : List Issue)
    (order : List (String × Except String (List Worklog))) (a ss es : String)
    (recs : List Record) (daily : Daily) (total : List (String × Int))
    (h : processRaw issues order a ss es = Except.ok (recs, daily, total)) :
    (∀ d inner, alGet daily d = some inner →
        alGetD inner TOTAL_KEY 0
          = (DEFAULT_CATEGORIES.map (fun c => alGetD inner c 0)).sum)
    ∧ (∀ c ∈ DEFAULT_CATEGORIES,
        alGet total c
          = some (((alKeys daily).map (fun d => alGetD (alGetD daily d []) c 0)).sum))
    ∧ alGet total TOTAL_KEY
        = some (((alKeys daily).map (fun d => alGetD (alGetD daily d []) TOTAL_KEY 0)).sum) := by
  obtain ⟨hd, ht, -⟩ := processRaw_ok issues order a ss es recs daily total h
  have hwf := qualOf_wf a (parse_date ss) (parse_date es) order
  refine ⟨?_, ?_, ?_⟩
  · intro d inner hi
    rw [hd, alGet_dailyOf _ hwf d] at hi
    by_cases hm : d ∈ (qualOf a (parse_date ss) (parse_date es) order).map QE.date
    · rw [if_pos hm] at hi
      injection hi with hi
      subst hi
      rw [alGetD, canonInner_get_tot]
      simp only [Option.getD_some]
      rw [totSum_eq_sum_cats _ _ hwf]
      have hmap : DEFAULT_CATEGORIES.map
            (fun c => alGetD (canonInner (qualOf a (parse_date ss) (parse_date es) order) d) c 0)
          = DEFAULT_CATEGORIES.map
            (fun c => catSum (qualOf a (parse_date ss) (parse_date es) order) d c) := by
        apply List.map_congr_left
        intro c hc
        rw [alGetD, canonInner_get_cat _ _ _ hc]
        rfl
      rw [hmap]
    · rw [if_neg hm] at hi
      cases hi
  · intro c hc
    rw [ht]
    unfold totalOf
    rw [alGet_append, alGet_map_mem _ _ _ hc]
    rfl
  · rw [ht]
    unfold totalOf
    rw [alGet_append, alGet_map_not_mem _ _ _ total_key_not_mem_cats]
    simp [alGet, Option.or]

/-- Witness for C2: the conservation equations hold on a concrete
two-issue run (3600 s of `개발` on one date, 1800 s of an unknown tag on
another). -/
theorem claim_c2_witness :
    alGetD [("테스트", 0), ("개발", 3600), ("회의", 0), ("세미나", 0), ("기타", 0),
        ("전체 총 시간", (3600 : Int))] TOTAL_KEY 0
      = (DEFAULT_CATEGORIES.map
          (fun c => alGetD [("테스트", 0), ("개발", 3600), ("회의", 0), ("세미나", 0), ("기타", 0),
            ("전체 총 시간", (3600 : Int))] c 0)).sum
    ∧ alGet [("테스트", 0), ("개발", 3600), ("회의", 0), ("세미나", 0), ("기타", 1800),
          ("전체 총 시간", (5400 : Int))] TOTAL_KEY
        = some (((alKeys [("2024-01-01",
              [("테스트", 0), ("개발", 3600), ("회의", 0), ("세미나", 0), ("기타", 0),
               ("전체 총 시간", (3600 : Int))]),
            ("2024-01-02",
              [("테스트", 0), ("개발", 0), ("회의", 0), ("세미나", 0), ("기타", 1800),
               ("전체 총 시간", 1800)])]).map
            (fun d => alGetD (alGetD [("2024-01-01",
              [("테스트", 0), ("개발", 3600), ("회의", 0), ("세미나", 0), ("기타", 0),
               ("전체 총 시간", (3600 : Int))]),
            ("2024-01-02",
              [("테스트", 0), ("개발", 0), ("회의", 0), ("세미나", 0), ("기타", 1800),
               ("전체 총 시간", 1800)])] d []) TOTAL_KEY 0)).sum) := by
  have h := claim_c2_conservation
    [⟨"VTS-1", ⟨some "T1", none⟩⟩, ⟨"VTS-2", ⟨some "T2", none⟩⟩]
    [("VTS-1", Except.ok [⟨"A", some "2024-01-01T09:00:00+00:00", some 3600,
        some (.str "[개발] work")⟩]),
     ("VTS-2", Except.ok [⟨"A", some "2024-01-02T10:00:00+00:00", some 1800,
        some (.str "[custom] x")⟩])]
    "A" "2024-01-01" "2024-01-02"
    [⟨"2024-01-01", "개발", "T1", "work", "1h 0m", "https://auto-jira.atlassian.net/browse/VTS-1"⟩,
     ⟨"2024-01-02", "custom", "T2", "x", "30m", "https://auto-jira.atlassian.net/browse/VTS-2"⟩]
    [("2024-01-01",
       [("테스트", 0), ("개발", 3600), ("회의", 0), ("세미나", 0), ("기타", 0),
        ("전체 총 시간", 3600)]),
     ("2024-01-02",
       [("테스트", 0), ("개발", 0), ("회의", 0), ("세미나", 0), ("기타", 1800),
        ("전체 총 시간", 1800)])]
    [("테스트", 0), ("개발", 3600), ("회의", 0), ("세미나", 0), ("기타", 1800),
     ("전체 총 시간", 5400)]
    (by rfl)
  exact ⟨h.1 "2024-01-01"
      [("테스트", 0), ("개발", 3600), ("회의", 0), ("세미나", 0), ("기타", 0),
       ("전체 총 시간", 3600)] (by rfl),
    h.2.2⟩

/-- C8: order-independence of the aggregates.  For a fixed discovery
response and a fixed set of per-issue fetch results, any two completion
orders (permutations of the same key/result pairs) that both succeed
produce identical formatted DailyAggregate contents (same date keys, same
category keys, same values, same output order — full list equality) and
identical formatted TotalAggregate contents.  Only the record list may
differ in order. -/
theorem claim_c8_order_invariance (disc : Except String SearchResponse)
    (order₁ order₂ : List (String × Except String (List Worklog)))
    (a ss es : String) (r₁ r₂ : List Record)
    (df₁ df₂ : List (String × List (String × String))) (tf₁ tf₂ : List (String × String))
    (hperm : List.Perm order₁ order₂)
    (h₁ : process_by_author disc order₁ a ss es = Except.ok (r₁, df₁, tf₁))
    (h₂ : process_by_author disc order₂ a ss es = Except.ok (r₂, df₂, tf₂)) :
    df₁ = df₂ ∧ tf₁ = tf₂ := by
  obtain ⟨is₁, d₁, t₁, hg₁, hr₁, hdf₁, htf₁⟩ :=
    process_by_author_ok disc order₁ a ss es r₁ df₁ tf₁ h₁
  obtain ⟨is₂, d₂, t₂, hg₂, hr₂, hdf₂, htf₂⟩ :=
    process_by_author_ok disc order₂ a ss es r₂ df₂ tf₂ h₂
  rw [hg₁] at hg₂
  injection hg₂ with hiss
  subst hiss
  obtain ⟨hd₁, ht₁, -⟩ := processRaw_ok is₁ order₁ a ss es r₁ d₁ t₁ hr₁
  obtain ⟨hd₂, ht₂, -⟩ := processRaw_ok is₁ order₂ a ss es r₂ d₂ t₂ hr₂
  have hq := qualOf_perm a (parse_date ss) (parse_date es) order₁ order₂ hperm
  have hwf₁ := qualOf_wf a (parse_date ss) (parse_date es) order₁
  have hwf₂ := qualOf_wf a (parse_date ss) (parse_date es) order₂
  have hget : ∀ d, alGet d₁ d = alGet d₂ d := by
    intro d
    rw [hd₁, hd₂, alGet_dailyOf _ hwf₁ d, alGet_dailyOf _ hwf₂ d]
    have hm : (d ∈ (qualOf a (parse_date ss) (parse_date es) order₁).map QE.date)
        ↔ (d ∈ (qualOf a (parse_date ss) (parse_date es) order₂).map QE.date) :=
      List.Perm.mem_iff (List.Perm.map QE.date hq)
    by_cases hmm : d ∈ (qualOf a (parse_date ss) (parse_date es) order₁).map QE.date
    · rw [if_pos hmm, if_pos (hm.mp hmm), canonInner_perm _ _ d hq]
    · rw [if_neg hmm, if_neg (fun hc => hmm (hm.mpr hc))]
  have hmem : ∀ d, d ∈ alKeys d₁ ↔ d ∈ alKeys d₂ := by
    intro d
    rw [mem_alKeys_iff, mem_alKeys_iff, hget d]
  have hnd₁ : (alKeys d₁).Nodup := by
    rw [hd₁]; exact alKeys_dailyOf_nodup _
  have hnd₂ : (alKeys d₂).Nodup := by
    rw [hd₂]; exact alKeys_dailyOf_nodup _
  constructor
  · rw [hdf₁, hdf₂]
    exact dailyFmt_congr d₁ d₂ hnd₁ hnd₂ hmem hget
  · rw [htf₁, htf₂, ht₁, ht₂]
    exact congrArg totalFmt (totalOf_congr d₁ d₂ hnd₁ hnd₂ hmem hget)

/-- Witness for C8: two concrete completion orders of the same two fetch
results (a permutation of each other), both succeeding, with equal daily
and total aggregates. -/
theorem claim_c8_witness :
    ([("2024-01-01", [("테스트", "0m"), ("개발", "1h 0m"), ("회의", "0m"), ("세미나", "0m"),
        ("기타", "0m"), ("전체 총 시간", "1h 0m")]),
      ("2024-01-02", [("테스트", "0m"), ("개발", "0m"), ("회의", "0m"), ("세미나", "0m"),
        ("기타", "30m"), ("전체 총 시간", "30m")])]
      = [("2024-01-01", [("테스트", "0m"), ("개발", "1h 0m"), ("회의", "0m"), ("세미나", "0m"),
          ("기타", "0m"), ("전체 총 시간", "1h 0m")]),
        ("2024-01-02", [("테스트", "0m"), ("개발", "0m"), ("회의", "0m"), ("세미나", "0m"),
          ("기타", "30m"), ("전체 총 시간", "30m")])])
    ∧ ([("테스트", "0m"), ("개발", "1h 0m"), ("회의", "0m"), ("세미나", "0m"), ("기타", "30m"),
        ("전체 총 시간", "1h 30m")]
      = [("테스트", "0m"), ("개발", "1h 0m"), ("회의", "0m"), ("세미나", "0m"), ("기타", "30m"),
         ("전체 총 시간", "1h 30m")]) :=
  claim_c8_order_invariance
    (Except.ok ⟨some [⟨"VTS-1", ⟨some "T1", none⟩⟩, ⟨"VTS-2", ⟨some "T2", none⟩⟩]⟩)
    [("VTS-1", Except.ok [⟨"A", some "2024-01-01T09:00:00+00:00", some 3600,
        some (.str "[개발] work")⟩]),
     ("VTS-2", Except.ok [⟨"A", some "2024-01-02T10:00:00+00:00", some 1800,
        some (.str "[custom] x")⟩])]
    [("VTS-2", Except.ok [⟨"A", some "2024-01-02T10:00:00+00:00", some 1800,
        some (.str "[custom] x")⟩]),
     ("VTS-1", Except.ok [⟨"A", some "2024-01-01T09:00:00+00:00", some 3600,
        some (.str "[개발] work")⟩])]
    "A" "2024-01-01" "2024-01-02"
    [⟨"2024-01-01", "개발", "T1", "work", "1h 0m", "https://auto-jira.atlassian.net/browse/VTS-1"⟩,
     ⟨"2024-01-02", "custom", "T2", "x", "30m", "https://auto-jira.atlassian.net/browse/VTS-2"⟩]
    [⟨"2024-01-02", "custom", "T2", "x", "30m", "https://auto-jira.atlassian.net/browse/VTS-2"⟩,
     ⟨"2024-01-01", "개발", "T1", "work", "1h 0m", "https://auto-jira.atlassian.net/browse/VTS-1"⟩]
    [("2024-01-01", [("테스트", "0m"), ("개발", "1h 0m"), ("회의", "0m"), ("세미나", "0m"),
        ("기타", "0m"), ("전체 총 시간", "1h 0m")]),
     ("2024-01-02", [("테스트", "0m"), ("개발", "0m"), ("회의", "0m"), ("세미나", "0m"),
        ("기타", "30m"), ("전체 총 시간", "30m")])]
    [("2024-01-01", [("테스트", "0m"), ("개발", "1h 0m"), ("회의", "0m"), ("세미나", "0m"),
        ("기타", "0m"), ("전체 총 시간", "1h 0m")]),
     ("2024-01-02", [("테스트", "0m"), ("개발", "0m"), ("회의", "0m"), ("세미나", "0m"),
        ("기타", "30m"), ("전체 총 시간", "30m")])]
    [("테스트", "0m"), ("개발", "1h 0m"), ("회의", "0m"), ("세미나", "0m"), ("기타", "30m"),
     ("전체 총 시간", "1h 30m")]
    [("테스트", "0m"), ("개발", "1h 0m"), ("회의", "0m"), ("세미나", "0m"), ("기타", "30m"),
     ("전체 총 시간", "1h 30m")]
    (List.Perm.swap _ _ []) (by rfl) (by rfl)

/-- C10: divergence between the Record's category and the aggregation
bucket (lines 170–188).  For a qualifying entry whose bracketed tag is not
in `DEFAULT_CATEGORIES`, the appended Record keeps the raw tag unchanged
as its category, while the seconds are accumulated (via `addQE`) under the
catch-all bucket `"기타"` in the daily aggregate — and hence, since the
total aggregate is the per-category sum of the daily buckets, under
`"기타"` there too.  In particular the tag differs from `"기타"`, so the
Record's category differs from the bucket that received its time. -/
theorem claim_c10_raw_tag_vs_bucket (a : String) (sdv edv dt : Date)
    (key summary : String) (st : PState) (wl : Worklog) (s : String)
    (hA : wl.displayName = a)
    (hs : wl.started = some s) (hse : ¬ (s = ""))
    (hdt : fromisoformat (pyReplace s "Z" "+00:00") = some dt)
    (h5 : Date.le sdv dt = true) (h7 : Date.le dt edv = true)
    (hcat : (parse_comment wl.comment).1 ∉ DEFAULT_CATEGORIES) :
    (parse_comment wl.comment).1 ≠ "기타" ∧
    processWorklog a (some sdv) (some edv) key summary st wl
      = Except.ok
          ⟨st.records ++
              [⟨formatDate dt, (parse_comment wl.comment).1, summary,
                pyReplace (parse_comment wl.comment).2 "\n" "<br>",
                secs_to_hms (some (wl.timeSpentSeconds.getD 0)),
                "https://" ++ JIRA_DOMAIN ++ "/browse/" ++ key⟩],
            addQE st.daily ⟨formatDate dt, "기타", wl.timeSpentSeconds.getD 0⟩⟩ := by
  constructor
  · intro e
    exact hcat (by rw [e]; exact gita_mem_cats)
  · unfold processWorklog
    rw [if_neg (fun hh => hh hA)]
    have h2 : ¬ (startedFalsy wl.started = true) := by
      rw [hs]
      simp [startedFalsy, hse]
    rw [if_neg h2]
    rw [hs]
    simp only [Option.getD_some]
    rw [hdt]
    dsimp only
    rw [if_pos h5]
    rw [if_pos h7]
    rw [if_neg hcat]

/-- Witness for C10: a concrete entry tagged `[custom]` produces a Record
with category `"custom"` while its 1800 seconds land in the `"기타"`
bucket. -/
theorem claim_c10_witness :
    (parse_comment (some (Comment.str "[custom] x"))).1 ≠ "기타" ∧
    processWorklog "A" (some ⟨2024, 1, 1⟩) (some ⟨2024, 1, 2⟩) "VTS-2" "T2" ⟨[], []⟩
        ⟨"A", some "2024-01-02T10:00:00+00:00", some 1800, some (Comment.str "[custom] x")⟩
      = Except.ok
          ⟨[] ++
              [⟨formatDate ⟨2024, 1, 2⟩, (parse_comment (some (Comment.str "[custom] x"))).1, "T2",
                pyReplace (parse_comment (some (Comment.str "[custom] x"))).2 "\n" "<br>",
                secs_to_hms (some ((some (1800 : Int)).getD 0)),
                "https://" ++ JIRA_DOMAIN ++ "/browse/" ++ "VTS-2"⟩],
            addQE [] ⟨formatDate ⟨2024, 1, 2⟩, "기타", (some (1800 : Int)).getD 0⟩⟩ :=
  claim_c10_raw_tag_vs_bucket "A" ⟨2024, 1, 1⟩ ⟨2024, 1, 2⟩ ⟨2024, 1, 2⟩ "VTS-2" "T2" ⟨[], []⟩
    ⟨"A", some "2024-01-02T10:00:00+00:00", some 1800, some (Comment.str "[custom] x")⟩
    "2024-01-02T10:00:00+00:00" rfl rfl (by decide) (by decide) (by decide) (by decide)
    (by decide)

/-- C3 (amended): there is no per-issue error handling in the completion
loop (lines 141–145): `future.result()` re-raises, so a query can only
complete when every per-issue fetch succeeded — no completed fetch in a
successful run is an error.  Consequently a single failing fetch aborts
the whole query instead of omitting just that issue. -/
theorem claim_c3_fetch_failure_fatal (issues : List Issue)
    (order : List (String × Except String (List Worklog))) (a ss es : String)
    (out : List Record × Daily × List (String × Int))
    (h : processRaw issues order a ss es = Except.ok out) :
    ∀ p ∈ order, ∀ e, ¬ (p.2 = Except.error e) := by
  obtain ⟨recs, daily, total⟩ := out
  intro p hp e he
  obtain ⟨l, hl⟩ := (processRaw_ok issues order a ss es recs daily total h).2.2 p hp
  rw [hl] at he
  cases he

/-- Counterexample to C3 as stated: a two-issue query where the first
fetch succeeds with a qualifying entry and the second fetch fails aborts
with the fetch error — it does not complete with the first issue's
records and aggregates. -/
theorem claim_c3_counterexample :
    process_by_author
        (Except.ok ⟨some [⟨"VTS-1", ⟨some "T1", none⟩⟩, ⟨"VTS-2", ⟨some "T2", none⟩⟩]⟩)
        [("VTS-1", Except.ok [⟨"A", some "2024-01-01T09:00:00+00:00", some 3600,
            some (Comment.str "[개발] work")⟩]),
         ("VTS-2", Except.error "boom")]
        "A" "2024-01-01" "2024-01-02"
      = Except.error "boom" := by rfl

/-- Witness for C3 (amended): a successful concrete one-issue run, whose
single completed fetch is indeed not an error. -/
theorem claim_c3_witness :
    ¬ ((("VTS-1", Except.ok ([] : List Worklog)) :
        String × Except String (List Worklog)).2 = Except.error "boom") :=
  claim_c3_fetch_failure_fatal [⟨"VTS-1", ⟨some "T1", none⟩⟩]
    [("VTS-1", Except.ok [])] "A" "2024-01-01" "2024-01-02"
    ([], [], totalOf []) (by rfl) ("VTS-1", Except.ok []) (by simp) "boom"

/-- C4 (amended): a failing discovery call aborts the whole query with
that error, while the no-results outcome completes without error,
returning empty records, an empty daily aggregate, and an all-zero total
aggregate (one `"0m"` entry per fixed category plus the grand total) —
so the two outcomes are distinguishable, but the total aggregate of the
no-results outcome is not the empty mapping. -/
theorem claim_c4_discovery_failure
    (order : List (String × Except String (List Worklog))) (a ss es e : String) :
    process_by_author (Except.error e) order a ss es = Except.error e
    ∧ process_by_author (Except.ok ⟨none⟩) [] a ss es
        = Except.ok ([], [],
            DEFAULT_CATEGORIES.map (fun c => (c, "0m")) ++ [(TOTAL_KEY, "0m")]) := by
  constructor
  · rfl
  · rfl

/-- Counterexample to C4 as stated: the valid no-results outcome does not
return an empty TotalAggregate — it returns one zero entry per fixed
category plus the grand total. -/
theorem claim_c4_counterexample :
    process_by_author (Except.ok ⟨none⟩) [] "A" "2024-01-01" "2024-01-02"
      = Except.ok ([], [],
          [("테스트", "0m"), ("개발", "0m"), ("회의", "0m"), ("세미나", "0m"),
           ("기타", "0m"), ("전체 총 시간", "0m")])
    ∧ ([("테스트", "0m"), ("개발", "0m"), ("회의", "0m"), ("세미나", "0m"),
        ("기타", "0m"), ("전체 총 시간", "0m")] : List (String × String)) ≠ [] := by
  exact ⟨by rfl, by decide⟩

/-- C9 (amended): a worklog entry whose start timestamp is missing (or
empty, which Python's truthiness check also skips) is silently dropped —
the state is unchanged and no error is raised; but an entry that passes
the author check and carries an unparseable timestamp raises `ValueError`
(un-caught), aborting the whole query rather than being dropped. -/
theorem claim_c9_malformed_entries (a : String) (sd ed : Option Date)
    (key summary : String) (st : PState) (wl : Worklog) :
    ((wl.started = none ∨ wl.started = some "") →
        processWorklog a sd ed key summary st wl = Except.ok st)
    ∧ (∀ s, wl.displayName = a → wl.started = some s → ¬ (s = "") →
        fromisoformat (pyReplace s "Z" "+00:00") = none →
        processWorklog a sd ed key summary st wl = Except.error "ValueError") := by
  constructor
  · intro hstart
    unfold processWorklog
    by_cases h1 : wl.displayName ≠ a
    · rw [if_pos h1]
    · rw [if_neg h1]
      have h2 : startedFalsy wl.started = true := by
        rcases hstart with h | h <;> rw [h] <;> rfl
      rw [if_pos h2]
  · intro s hA hs hse hparse
    unfold processWorklog
    rw [if_neg (fun hh => hh hA)]
    have h2 : ¬ (startedFalsy wl.started = true) := by
      rw [hs]
      simp [startedFalsy, hse]
    rw [if_neg h2]
    rw [hs]
    simp only [Option.getD_some]
    rw [hparse]

/-- Counterexample to C9 as stated: an entry with the right author and an
unparseable timestamp is not silently dropped — processing it raises
`ValueError` (aborting the query) instead of returning the state
unchanged. -/
theorem claim_c9_counterexample :
    processWorklog "A" (some ⟨2024, 1, 1⟩) (some ⟨2024, 1, 2⟩) "K" "S"
        ⟨[], []⟩ ⟨"A", some "garbage", some 100, none⟩
      = Except.error "ValueError" := by rfl

/-- Witness for C9 (amended): a concrete entry with a missing start
timestamp is skipped, and a concrete entry with an unparseable timestamp
raises. -/
theorem claim_c9_witness :
    processWorklog "A" (some ⟨2024, 1, 1⟩) (some ⟨2024, 1, 2⟩) "K" "S" ⟨[], []⟩
        ⟨"A", none, some 100, none⟩ = Except.ok ⟨[], []⟩
    ∧ processWorklog "A" (some ⟨2024, 1, 1⟩) (some ⟨2024, 1, 2⟩) "K" "S" ⟨[], []⟩
        ⟨"A", some "nonsense", some 100, none⟩ = Except.error "ValueError" := by
  constructor
  · exact (claim_c9_malformed_entries "A" (some ⟨2024, 1, 1⟩) (some ⟨2024, 1, 2⟩) "K" "S"
      ⟨[], []⟩ ⟨"A", none, some 100, none⟩).1 (Or.inl rfl)
  · exact (claim_c9_malformed_entries "A" (some ⟨2024, 1, 1⟩) (some ⟨2024, 1, 2⟩) "K" "S"
      ⟨[], []⟩ ⟨"A", some "nonsense", some 100, none⟩).2 "nonsense" rfl rfl (by decide)
      (by decide)

/-- C6 (amended): `secs_to_hms` is total; for every non-negative number
of seconds the output always ends in an explicit minutes component
(`"0m"` when the minute count is zero) and carries an hours component
exactly when `S / 3600` is nonzero; a missing duration is formatted like
zero seconds; but a negative duration is not treated as zero — it goes
through `timedelta`'s floored normalization, e.g. `-10` seconds formats
as `"-1h 59m"`. -/
theorem claim_c6_duration_formatter :
    (∀ S : Nat, secs_to_hms (some (S : Int))
        = if S / 3600 = 0 then toString (S % 3600 / 60) ++ "m"
          else toString (S / 3600) ++ "h" ++ " " ++ (toString (S % 3600 / 60) ++ "m"))
    ∧ secs_to_hms none = "0m"
    ∧ secs_to_hms (some 0) = "0m"
    ∧ secs_to_hms (some (-10)) = "-1h 59m" := by
  refine ⟨secs_to_hms_nonneg, by rfl, by rfl, by rfl⟩

/-- Counterexample to C6 as stated: a negative duration is not formatted
identically to zero seconds. -/
theorem claim_c6_counterexample :
    secs_to_hms (some (-10)) = "-1h 59m"
    ∧ ¬ (secs_to_hms (some (-10)) = secs_to_hms (some 0)) := by
  exact ⟨by rfl, by decide⟩

/-- C7 (amended): the parent-chain walk (lines 148–157).  With no parent
reference the grouping is the issue's own title; otherwise the walk
follows nested parent references and terminates at the first node without
one.  A terminal node that has a `fields` dict yields its (possibly
missing, then empty) summary; but a terminal node with no `fields` dict
at all, although treated as terminal by the loop condition, makes the
title lookup `top["fields"]` raise `KeyError`, aborting the query instead
of yielding a result. -/
theorem claim_c7_parent_resolution :
    (∀ summary : String, top_sum_of summary none = Except.ok summary)
    ∧ (∀ (l : List (Option String)) (s : Option String),
        resolveTop (mkChain l (PNode.mk (some (s, none)))) = Except.ok (s.getD ""))
    ∧ (∀ l : List (Option String),
        resolveTop (mkChain l (PNode.mk none)) = Except.error "KeyError") := by
  refine ⟨fun _ => rfl, ?_, ?_⟩
  · intro l s
    induction l with
    | nil => rfl
    | cons a l ih =>
        show resolveTop (PNode.mk (some (a, some (mkChain l (PNode.mk (some (s, none))))))) = _
        unfold resolveTop topLoop
        unfold resolveTop at ih
        exact ih
  · intro l
    induction l with
    | nil => rfl
    | cons a l ih =>
        show resolveTop (PNode.mk (some (a, some (mkChain l (PNode.mk none))))) = _
        unfold resolveTop topLoop
        unfold resolveTop at ih
        exact ih

/-- Counterexample to C7 as stated: an issue whose direct parent
reference has no nested `fields` does not yield a grouping title — the
walk stops there but the title lookup raises `KeyError`. -/
theorem claim_c7_counterexample :
    top_sum_of "S" (some (PNode.mk none)) = Except.error "KeyError" := by rfl

/-- C5 (amended): the comment classifier `parse_comment` against the
regex `^\s*\[(.*?)\]\s*(.*)`.  (1) For a comment consisting of optional
whitespace, a bracketed tag whose characters contain neither `]` nor a
newline, and a remainder, the result is the tag paired with the remainder
after the closing bracket and any following whitespace, truncated at the
first newline (`.` does not cross newlines) — not the entire remainder.
(2) A nonempty comment on which the regex fails is returned unchanged
under the catch-all category `"기타"`.  (3) An absent or empty comment
yields `("기타", "")`. -/
theorem claim_c5_comment_classifier :
    (∀ w t u : List Char,
        (∀ c ∈ w, isPySpace c = true) →
        (∀ c ∈ t, ¬ (c = ']') ∧ ¬ (c = '\n')) →
        parse_comment (some (Comment.str (String.mk (w ++ '[' :: (t ++ ']' :: u)))))
          = (String.mk t,
             String.mk ((u.dropWhile isPySpace).takeWhile (fun c => decide (c ≠ '\n')))))
    ∧ (∀ s : String, ¬ (s = "") → matchComment s = none →
        parse_comment (some (Comment.str s)) = ("기타", s))
    ∧ parse_comment none = ("기타", "")
    ∧ parse_comment (some (Comment.str "")) = ("기타", "") := by
  refine ⟨?_, ?_, by rfl, by rfl⟩
  · intro w t u hw ht
    have hdata : ¬ (String.mk (w ++ '[' :: (t ++ ']' :: u)) = "") := by
      intro e
      have e2 : w ++ '[' :: (t ++ ']' :: u) = [] := congrArg String.data e
      exact absurd e2 (by simp)
    have hfalsy : ¬ (commentFalsy (Comment.str (String.mk (w ++ '[' :: (t ++ ']' :: u)))) = true) := by
      intro hc
      exact hdata (of_decide_eq_true hc)
    have hpred : ∀ c ∈ t, (fun c => decide (c ≠ ']' ∧ c ≠ '\n')) c = true := by
      intro c hc
      exact decide_eq_true ⟨(ht c hc).1, (ht c hc).2⟩
    have hmatch : matchComment (String.mk (w ++ '[' :: (t ++ ']' :: u)))
        = some (String.mk t,
            String.mk ((u.dropWhile isPySpace).takeWhile (fun c => decide (c ≠ '\n')))) := by
      unfold matchComment
      have hd0 : (String.mk (w ++ '[' :: (t ++ ']' :: u))).data.dropWhile isPySpace
          = '[' :: (t ++ ']' :: u) :=
        dropWhile_append_stop isPySpace w '[' (t ++ ']' :: u) hw (by decide)
      rw [hd0]
      dsimp only
      rw [if_pos rfl]
      have hd1 : (t ++ ']' :: u).dropWhile (fun c => decide (c ≠ ']' ∧ c ≠ '\n')) = ']' :: u :=
        dropWhile_append_stop _ t ']' u hpred (by decide)
      rw [hd1]
      dsimp only
      rw [if_pos rfl]
      rw [takeWhile_append_stop _ t ']' u hpred (by decide)]
    simp only [parse_comment]
    rw [if_neg hfalsy]
    rw [hmatch]
  · intro s hs hm
    have hfalsy : ¬ (commentFalsy (Comment.str s) = true) := by
      intro hc
      exact hs (of_decide_eq_true hc)
    simp only [parse_comment]
    rw [if_neg hfalsy]
    rw [hm]

/-- Counterexample to C5 as stated: for the comment `"[a] b\nc"` the
returned description is `"b"`, the remainder truncated at the newline,
not the entire remainder `"b\nc"`. -/
theorem claim_c5_counterexample :
    parse_comment (some (Comment.str "[a] b\nc")) = ("a", "b")
    ∧ ¬ (parse_comment (some (Comment.str "[a] b\nc")) = ("a", "b\nc")) := by
  exact ⟨by decide, by decide⟩

/-- Witness for C5 (amended): a concrete tagged comment with leading
whitespace splits into its tag and trimmed description, and a concrete
untagged comment folds into the catch-all. -/
theorem claim_c5_witness :
    parse_comment (some (Comment.str (String.mk ([' '] ++ '[' :: (['개', '발'] ++ ']' :: [' ', 'f', 'i', 'x'])))))
      = (String.mk ['개', '발'],
         String.mk (([' ', 'f', 'i', 'x'].dropWhile isPySpace).takeWhile (fun c => decide (c ≠ '\n'))))
    ∧ parse_comment (some (Comment.str "no tag here")) = ("기타", "no tag here") := by
  constructor
  · exact claim_c5_comment_classifier.1 [' '] ['개', '발'] [' ', 'f', 'i', 'x']
      (by decide) (by decide)
  · exact claim_c5_comment_classifier.2.1 "no tag here" (by decide) (by decide)
